import Mathlib

/-!
Verification of the race simulation core of `race_picker`.

The numerical model is embedded over `ℚ` (the source uses JS doubles; all
quantities appearing in the claims are exact rational computations).
Sources embedded here:
- `src/components/RacingGame.tsx` (horizontal variant): speed profiles,
  per-tick segment integration, winner determination, animation-loop
  stop condition, lane assignment.
- `src/unnamed/part_003` (vertical variant with knockouts): knocked-out
  branch, pairwise collision pass, obstacle/bird pass, stop condition.
- `src/App.tsx`: tournament-controller fast path for a single active racer.
-/

namespace RacePicker

/-- JS `%` on the nonnegative operands arising in the integration loop
(`totalDistance % (segmentDistance * speeds.length)`); for `0 ≤ a` the JS
truncated remainder agrees with the floor-based remainder used here. -/
def jsMod (a b : ℚ) : ℚ := a - b * (⌊a / b⌋ : ℤ)

/-- A speed profile, from `racerSpeedProfiles` (RacingGame.tsx 110-121 /
part_003 222-233): `{ speeds, segmentDistance: TRACK_LENGTH / numChanges }`. -/
structure Profile where
  speeds : List ℚ
  segmentDistance : ℚ

/-- The per-tick integration `while` loop (RacingGame.tsx 177-200 /
part_003 326-349), walking the speed segments.  The list argument is the
suffix `speeds[segmentIndex:]` of the profile's speeds; the loop exits when
`timeRemaining` is exhausted or the segments run out. -/
def integrateAux (segDist totalLen : ℚ) :
    List ℚ → ℕ → ℚ → ℚ → ℚ
  | [], _, totalDistance, _ => totalDistance
  | sp :: rest, segmentIndex, totalDistance, timeRemaining =>
    if 0 < timeRemaining then
      let segmentEnd : ℚ := ((segmentIndex : ℚ) + 1) * segDist
      let remainingInSegment := segmentEnd - jsMod totalDistance totalLen
      let timeForSegment := remainingInSegment / sp
      if timeForSegment ≤ timeRemaining then
        integrateAux segDist totalLen rest (segmentIndex + 1)
          (totalDistance + remainingInSegment) (timeRemaining - timeForSegment)
      else totalDistance + sp * timeRemaining
    else totalDistance

/-- Accumulated (pre-clamp) distance of a racer with profile `p` at
`elapsedMs` milliseconds after race start (`elapsed / 1000` converts to
seconds, as in the source). -/
def totalDistanceAt (p : Profile) (elapsedMs : ℚ) : ℚ :=
  integrateAux p.segmentDistance (p.segmentDistance * p.speeds.length)
    p.speeds 0 0 (elapsedMs / 1000)

/-- Clamped horizontal position: `x = Math.min(50 + totalDistance, FINISH_LINE)`
with `FINISH_LINE = 700` (RacingGame.tsx 202). -/
def xPos (p : Profile) (elapsedMs : ℚ) : ℚ :=
  min (50 + totalDistanceAt p elapsedMs) 700

/-- Clamped vertical position of part_003 (line 351):
`y = Math.max(START_LINE - totalDistance, FINISH_LINE)` with
`START_LINE = 555`, `FINISH_LINE = 45`. -/
def yPos3 (p : Profile) (elapsedMs : ℚ) : ℚ :=
  max (555 - totalDistanceAt p elapsedMs) 45

/-- The speed-profile generator (RacingGame.tsx 111-121 / part_003 223-233)
as a function of its uniform draws: `u0` is the `Math.random()` behind
`numChanges = Math.floor(Math.random() * 3) + 2`, and `u i` the draw behind
the `i`-th segment speed `Math.random() * 200 + 200`. -/
def genProfile (trackLen : ℚ) (u0 : ℚ) (u : ℕ → ℚ) : Profile :=
  let numChanges : ℕ := (⌊u0 * 3⌋).toNat + 2
  { speeds := (List.range numChanges).map (fun i => u i * 200 + 200)
    segmentDistance := trackLen / numChanges }

/-- Mod-free restatement of the integration loop, valid because inside the
loop `totalDistance` always equals `segmentIndex * segmentDistance`, which is
strictly below `segmentDistance * speeds.length`, so the `%` is the identity. -/
def integrateSimple (segDist : ℚ) : List ℚ → ℚ → ℚ
  | [], _ => 0
  | sp :: rest, t =>
    if 0 < t then
      if segDist / sp ≤ t then segDist + integrateSimple segDist rest (t - segDist / sp)
      else sp * t
    else 0

lemma jsMod_eq_self {a b : ℚ} (h0 : 0 ≤ a) (hab : a < b) : jsMod a b = a := by
  have hb : 0 < b := lt_of_le_of_lt h0 hab
  have hz : ⌊a / b⌋ = 0 := by
    rw [Int.floor_eq_zero_iff]
    exact ⟨div_nonneg h0 hb.le, (div_lt_one hb).mpr hab⟩
  simp [jsMod, hz]

lemma integrateAux_eq_simple (segDist : ℚ) (hseg : 0 < segDist) (n : ℕ) :
    ∀ (rest : List ℚ) (i : ℕ), i + rest.length = n → ∀ t,
      integrateAux segDist (segDist * n) rest i ((i : ℚ) * segDist) t
        = (i : ℚ) * segDist + integrateSimple segDist rest t := by
  intro rest
  induction rest with
  | nil => intro i hi t; simp [integrateAux, integrateSimple]
  | cons sp rest ih =>
    intro i hi t
    have hin : i < n := by simp at hi; omega
    have hlt : (i : ℚ) * segDist < segDist * n := by
      rw [mul_comm segDist (n : ℚ)]
      have : (i : ℚ) < (n : ℚ) := by exact_mod_cast hin
      exact mul_lt_mul_of_pos_right this hseg
    have hmod : jsMod ((i : ℚ) * segDist) (segDist * n) = (i : ℚ) * segDist :=
      jsMod_eq_self (by positivity) hlt
    by_cases ht : 0 < t
    · have hrem : ((i : ℚ) + 1) * segDist - (i : ℚ) * segDist = segDist := by ring
      by_cases htf : segDist / sp ≤ t
      · have hrec := ih (i + 1) (by simp at hi ⊢; omega) (t - segDist / sp)
        have hd : (i : ℚ) * segDist + segDist = ((i + 1 : ℕ) : ℚ) * segDist := by
          push_cast; ring
        simp only [integrateAux, integrateSimple, hmod, hrem, if_pos ht, if_pos htf]
        rw [hd, hrec]
        push_cast; ring
      · simp only [integrateAux, integrateSimple, hmod, hrem, if_pos ht, if_neg htf]
    · simp only [integrateAux, integrateSimple, if_neg ht]
      ring

lemma totalDistanceAt_eq (p : Profile) (h : 0 < p.segmentDistance) (e : ℚ) :
    totalDistanceAt p e = integrateSimple p.segmentDistance p.speeds (e / 1000) := by
  have := integrateAux_eq_simple p.segmentDistance h p.speeds.length p.speeds 0
    (by simp) (e / 1000)
  simpa [totalDistanceAt] using this

lemma integrateSimple_nonneg (segDist : ℚ) (hseg : 0 ≤ segDist) :
    ∀ (l : List ℚ), (∀ s ∈ l, 0 < s) → ∀ t, 0 ≤ integrateSimple segDist l t := by
  intro l
  induction l with
  | nil => intro _ t; simp [integrateSimple]
  | cons sp rest ih =>
    intro hpos t
    have hsp : 0 < sp := hpos sp (by simp)
    have hrest : ∀ s ∈ rest, 0 < s := fun s hs => hpos s (by simp [hs])
    by_cases ht : 0 < t
    · by_cases htf : segDist / sp ≤ t
      · simp only [integrateSimple, if_pos ht, if_pos htf]
        have := ih hrest (t - segDist / sp)
        linarith
      · simp only [integrateSimple, if_pos ht, if_neg htf]
        positivity
    · simp [integrateSimple, ht]

lemma integrateSimple_le (segDist : ℚ) (hseg : 0 ≤ segDist) :
    ∀ (l : List ℚ), (∀ s ∈ l, 0 < s) → ∀ t,
      integrateSimple segDist l t ≤ segDist * l.length := by
  intro l
  induction l with
  | nil => intro _ t; simp [integrateSimple]
  | cons sp rest ih =>
    intro hpos t
    have hsp : 0 < sp := hpos sp (by simp)
    have hrest : ∀ s ∈ rest, 0 < s := fun s hs => hpos s (by simp [hs])
    by_cases ht : 0 < t
    · by_cases htf : segDist / sp ≤ t
      · simp only [integrateSimple, if_pos ht, if_pos htf, List.length_cons]
        have := ih hrest (t - segDist / sp)
        push_cast
        have h2 : segDist * ((rest.length : ℚ) + 1) = segDist * rest.length + segDist := by
          ring
        rw [h2]
        linarith
      · simp only [integrateSimple, if_pos ht, if_neg htf, List.length_cons]
        push_cast
        have h1 : sp * t < sp * (segDist / sp) := by
          apply mul_lt_mul_of_pos_left _ hsp
          exact lt_of_not_le htf
        rw [mul_div_cancel₀ _ hsp.ne'] at h1
        have h3 : (0 : ℚ) ≤ (rest.length : ℚ) := Nat.cast_nonneg rest.length
        nlinarith
    · simp only [integrateSimple, if_neg ht]
      positivity

lemma integrateSimple_mono (segDist : ℚ) (hseg : 0 < segDist) :
    ∀ (l : List ℚ), (∀ s ∈ l, 0 < s) → ∀ t1 t2, t1 ≤ t2 →
      integrateSimple segDist l t1 ≤ integrateSimple segDist l t2 := by
  intro l
  induction l with
  | nil => intro _ t1 t2 _; simp [integrateSimple]
  | cons sp rest ih =>
    intro hpos t1 t2 h12
    have hsp : 0 < sp := hpos sp (by simp)
    have hrest : ∀ s ∈ rest, 0 < s := fun s hs => hpos s (by simp [hs])
    by_cases ht1 : 0 < t1
    · have ht2 : 0 < t2 := lt_of_lt_of_le ht1 h12
      by_cases htf1 : segDist / sp ≤ t1
      · have htf2 : segDist / sp ≤ t2 := le_trans htf1 h12
        simp only [integrateSimple, if_pos ht1, if_pos ht2, if_pos htf1, if_pos htf2]
        have := ih hrest (t1 - segDist / sp) (t2 - segDist / sp) (by linarith)
        linarith
      · by_cases htf2 : segDist / sp ≤ t2
        · simp only [integrateSimple, if_pos ht1, if_pos ht2, if_neg htf1, if_pos htf2]
          have hle : sp * t1 ≤ sp * (segDist / sp) :=
            mul_le_mul_of_nonneg_left (le_of_not_le htf1) hsp.le
          rw [mul_div_cancel₀ _ hsp.ne'] at hle
          have := integrateSimple_nonneg segDist hseg.le rest hrest (t2 - segDist / sp)
          linarith
        · simp only [integrateSimple, if_pos ht1, if_pos ht2, if_neg htf1, if_neg htf2]
          exact mul_le_mul_of_nonneg_left h12 hsp.le
    · simp only [integrateSimple, if_neg ht1]
      by_cases ht2 : 0 < t2
      · have h := integrateSimple_nonneg segDist hseg.le (sp :: rest) hpos t2
        simpa [integrateSimple] using h
      · simp [integrateSimple, ht2]

lemma integrateSimple_full (segDist : ℚ) (hseg : 0 < segDist) :
    ∀ (l : List ℚ), (∀ s ∈ l, 0 < s) → ∀ t,
      (l.map (fun s => segDist / s)).sum ≤ t →
      integrateSimple segDist l t = segDist * l.length := by
  intro l
  induction l with
  | nil => intro _ t _; simp [integrateSimple]
  | cons sp rest ih =>
    intro hpos t hsum
    have hsp : 0 < sp := hpos sp (by simp)
    have hrest : ∀ s ∈ rest, 0 < s := fun s hs => hpos s (by simp [hs])
    have hsum' : (rest.map (fun s => segDist / s)).sum ≤ t - segDist / sp := by
      simp only [List.map_cons, List.sum_cons] at hsum
      linarith
    have hrn : 0 ≤ (rest.map (fun s => segDist / s)).sum := by
      apply List.sum_nonneg
      intro x hx
      simp only [List.mem_map] at hx
      obtain ⟨s, hs, rfl⟩ := hx
      exact (div_nonneg hseg.le (hrest s hs).le)
    have htf : segDist / sp ≤ t := by linarith
    have ht : 0 < t := lt_of_lt_of_le (div_pos hseg hsp) htf
    simp only [integrateSimple, if_pos ht, if_pos htf, List.length_cons]
    rw [ih hrest (t - segDist / sp) hsum']
    push_cast
    ring

/-- What `racerSpeedProfiles` guarantees in the horizontal variant:
nonempty segment list, speeds at least 200 px/s, segment length positive,
and the segments partition `TRACK_LENGTH = FINISH_LINE - 50 = 650`. -/
def WFProfile (p : Profile) : Prop :=
  p.speeds ≠ [] ∧ 0 < p.segmentDistance ∧ (∀ s ∈ p.speeds, 200 ≤ s) ∧
    (p.speeds.length : ℚ) * p.segmentDistance = 650

lemma totalDistanceAt_nonneg (p : Profile) (hseg : 0 < p.segmentDistance)
    (hsp : ∀ s ∈ p.speeds, 0 < s) (e : ℚ) : 0 ≤ totalDistanceAt p e := by
  rw [totalDistanceAt_eq p hseg]
  exact integrateSimple_nonneg _ hseg.le _ hsp _

lemma totalDistanceAt_mono (p : Profile) (hseg : 0 < p.segmentDistance)
    (hsp : ∀ s ∈ p.speeds, 0 < s) {e1 e2 : ℚ} (h : e1 ≤ e2) :
    totalDistanceAt p e1 ≤ totalDistanceAt p e2 := by
  rw [totalDistanceAt_eq p hseg, totalDistanceAt_eq p hseg]
  exact integrateSimple_mono _ hseg _ hsp _ _ (by linarith)

lemma wf_speeds_pos {p : Profile} (hp : WFProfile p) : ∀ s ∈ p.speeds, 0 < s :=
  fun s hs => lt_of_lt_of_le (by norm_num) (hp.2.2.1 s hs)

/-- With all speeds at least 200 and segments partitioning 650, every racer's
accumulated distance is the full 650 once 3250 ms have elapsed
(total running time is at most `650 / 200 = 3.25 s`). -/
lemma totalDistanceAt_full {p : Profile} (hp : WFProfile p) {e : ℚ}
    (he : 3250 ≤ e) : totalDistanceAt p e = 650 := by
  obtain ⟨hne, hseg, hsp, hlen⟩ := hp
  rw [totalDistanceAt_eq p hseg]
  have hsum : (p.speeds.map (fun s => p.segmentDistance / s)).sum ≤ e / 1000 := by
    have hbound : (p.speeds.map (fun s => p.segmentDistance / s)).sum ≤
        (p.speeds.length : ℚ) * (p.segmentDistance / 200) := by
      have := List.sum_le_card_nsmul (p.speeds.map (fun s => p.segmentDistance / s))
        (p.segmentDistance / 200) ?_
      · simpa [mul_comm, nsmul_eq_mul] using this
      · intro x hx
        simp only [List.mem_map] at hx
        obtain ⟨s, hs, rfl⟩ := hx
        have h200 : (200 : ℚ) ≤ s := hsp s hs
        exact div_le_div_of_nonneg_left hseg.le (by norm_num) h200
    have heq : (p.speeds.length : ℚ) * (p.segmentDistance / 200) = 650 / 200 := by
      rw [mul_div_assoc'] at *
      rw [hlen]
    rw [heq] at hbound
    have : (650 : ℚ) / 200 ≤ e / 1000 := by
      rw [div_le_div_iff₀ (by norm_num) (by norm_num)]
      linarith
    linarith
  rw [integrateSimple_full _ hseg _ (wf_speeds_pos ⟨hne, hseg, hsp, hlen⟩) _ hsum, mul_comm]
  exact hlen

/-- Current speed lookup (RacingGame.tsx 206-207 / part_003 355-356):
`speeds[Math.min(Math.floor(totalDistance / segmentDistance), speeds.length - 1)]`.
The out-of-range default 0 is unreachable because of the `Math.min` clamp. -/
def currentSpeedOf (p : Profile) (d : ℚ) : ℚ :=
  p.speeds.getD (min (⌊d / p.segmentDistance⌋.toNat) (p.speeds.length - 1)) 0

/-- Racer state of the horizontal variant (RacingGame.tsx 5-15), restricted
to the fields the simulation logic reads or writes.  `entryId` stands for the
referenced `Entry`.  The TS-optional fields `totalDistance`, `previousSpeed`
and `spinAngle` are always written before being read (apart from `||`-guarded
reads that treat `undefined` and `0` alike), so they are plain fields
initialised to 0. -/
structure RacerH where
  entryId : ℤ
  x : ℚ
  speed : ℚ
  finished : Bool
  totalDistance : ℚ
  previousSpeed : ℚ
  spinAngle : ℚ
  laneIndex : ℕ

/-- The per-racer, per-tick update of the horizontal variant
(RacingGame.tsx 174-236).  `spinR` is the `Math.random()` draw of the spin
wobble.  The particle emissions triggered by the ±20 px/s speed-change
thresholds are render-only side effects (they alter no racer field) and so
have no counterpart in the racer state. -/
def hStep (p : Profile) (elapsed : ℚ) (spinR : ℚ) (racer : RacerH) : RacerH :=
  let totalDistance := totalDistanceAt p elapsed
  let x := min (50 + totalDistance) 700
  let isFinished : Bool := decide (700 ≤ x)
  let currentSpeed := currentSpeedOf p totalDistance
  let prevSpeed := if racer.previousSpeed = 0 then currentSpeed else racer.previousSpeed
  { racer with
    x := x
    totalDistance := totalDistance
    speed := currentSpeed
    previousSpeed := currentSpeed
    spinAngle := if 20 < prevSpeed - currentSpeed
      then racer.spinAngle + (spinR - 1/2) * (2/5)
      else racer.spinAngle * (95/100)
    finished := isFinished }

/-- The winner-selection `reduce` (RacingGame.tsx 244-246 / part_003 487-489):
`(prev, current) => current.totalDistance > prev.totalDistance ? current : prev`,
generic in the distance projection `d`. -/
def reduceWinner {α : Type} (d : α → ℚ) : α → List α → α
  | prev, [] => prev
  | prev, current :: rest =>
    reduceWinner d (if d prev < d current then current else prev) rest

/-- `finishers.reduce(...)` of the winner scan; `none` exactly when there is
no finisher this tick. -/
def firstFinisher {α : Type} (d : α → ℚ) : List α → Option α
  | [] => none
  | h :: t => some (reduceWinner d h t)

/-- Characterisation of the winner `reduce`: the result is either the seed
(when nothing strictly exceeds it) or the first list element strictly
exceeding the seed and everything before it, and nothing afterwards exceeds
the result. -/
lemma reduceWinner_spec {α : Type} (d : α → ℚ) :
    ∀ (l : List α) (prev : α),
      (reduceWinner d prev l = prev ∧ ∀ c ∈ l, d c ≤ d prev) ∨
      (∃ i, ∃ hi : i < l.length,
        reduceWinner d prev l = l.get ⟨i, hi⟩ ∧
        d prev < d (l.get ⟨i, hi⟩) ∧
        (∀ j, ∀ hj : j < l.length, j < i → d (l.get ⟨j, hj⟩) < d (l.get ⟨i, hi⟩)) ∧
        (∀ c ∈ l, d c ≤ d (l.get ⟨i, hi⟩))) := by
  intro l
  induction l with
  | nil => intro prev; left; simp [reduceWinner]
  | cons c rest ih =>
    intro prev
    by_cases hc : d prev < d c
    · rcases ih c with ⟨heq, hle⟩ | ⟨i, hi, heq, hlt, hbefore, hle⟩
      · right
        refine ⟨0, by simp, ?_, ?_, ?_, ?_⟩
        · simpa [reduceWinner, if_pos hc] using heq
        · simpa using hc
        · intro j hj hj0; omega
        · intro x hx
          rcases List.mem_cons.mp hx with rfl | hx
          · simp
          · simpa using hle x hx
      · right
        refine ⟨i + 1, by simpa using Nat.succ_lt_succ hi, ?_, ?_, ?_, ?_⟩
        · simpa [reduceWinner, if_pos hc] using heq
        · simpa using lt_trans hc hlt
        · intro j hj hji
          match j with
          | 0 => simpa using hlt
          | j' + 1 =>
            have hj' : j' < rest.length := by simpa using hj
            simpa using hbefore j' hj' (by omega)
        · intro x hx
          rcases List.mem_cons.mp hx with rfl | hx
          · simpa using (le_of_lt hlt)
          · simpa using hle x hx
    · rcases ih prev with ⟨heq, hle⟩ | ⟨i, hi, heq, hlt, hbefore, hle⟩
      · left
        constructor
        · simpa [reduceWinner, if_neg hc] using heq
        · intro x hx
          rcases List.mem_cons.mp hx with rfl | hx
          · exact le_of_not_lt hc
          · exact hle x hx
      · right
        refine ⟨i + 1, by simpa using Nat.succ_lt_succ hi, ?_, ?_, ?_, ?_⟩
        · simpa [reduceWinner, if_neg hc] using heq
        · simpa using hlt
        · intro j hj hji
          match j with
          | 0 =>
            have : d prev < d (rest.get ⟨i, hi⟩) := hlt
            simpa using lt_of_le_of_lt (le_of_not_lt hc) this
          | j' + 1 =>
            have hj' : j' < rest.length := by simpa using hj
            simpa using hbefore j' hj' (by omega)
        · intro x hx
          rcases List.mem_cons.mp hx with rfl | hx
          · simpa using le_of_lt (lt_of_le_of_lt (le_of_not_lt hc) hlt)
          · simpa using hle x hx

/-- The winner scan picks, among the finishers, the first element attaining
the maximum accumulated distance. -/
lemma firstFinisher_argmax {α : Type} (d : α → ℚ) (l : List α) (hne : l ≠ []) :
    ∃ i, ∃ hi : i < l.length,
      firstFinisher d l = some (l.get ⟨i, hi⟩) ∧
      (∀ c ∈ l, d c ≤ d (l.get ⟨i, hi⟩)) ∧
      (∀ j, ∀ hj : j < l.length, j < i → d (l.get ⟨j, hj⟩) < d (l.get ⟨i, hi⟩)) := by
  match l, hne with
  | h :: t, _ =>
    rcases reduceWinner_spec d t h with ⟨heq, hle⟩ | ⟨i, hi, heq, hlt, hbefore, hle⟩
    · refine ⟨0, by simp, ?_, ?_, ?_⟩
      · simp [firstFinisher, heq]
      · intro x hx
        rcases List.mem_cons.mp hx with rfl | hx
        · simp
        · simpa using hle x hx
      · intro j hj hj0; omega
    · refine ⟨i + 1, by simpa using Nat.succ_lt_succ hi, ?_, ?_, ?_⟩
      · simp only [firstFinisher, heq]
        congr 1
      · intro x hx
        rcases List.mem_cons.mp hx with rfl | hx
        · simpa using le_of_lt hlt
        · simpa using hle x hx
      · intro j hj hji
        match j with
        | 0 => simpa using hlt
        | j' + 1 =>
          have hj' : j' < t.length := by simpa using hj
          simpa using hbefore j' hj' (by omega)

/-- If one finisher's accumulated distance strictly exceeds that of every
other (as a value), the scan selects it. -/
lemma firstFinisher_strictMax {α : Type} (d : α → ℚ) (l : List α) (w : α)
    (hw : w ∈ l) (hmax : ∀ r ∈ l, r = w ∨ d r < d w) :
    firstFinisher d l = some w := by
  obtain ⟨i, hi, heq, hle, _⟩ := firstFinisher_argmax d l (List.ne_nil_of_mem hw)
  rcases hmax (l.get ⟨i, hi⟩) (l.get_mem _ _) with hgw | hlt
  · rw [heq, hgw]
  · exact absurd (hle w hw) (not_le.mpr hlt)

/-- State of one race's animation loop (the `animate` closure,
RacingGame.tsx 170-259 / part_003 241-503): the racer-world snapshot, the
closure-local `finished` flag (`winnerFlag`), the list of `onWinner`
emissions so far, whether the loop has stopped rescheduling, and the last
frame's elapsed time (part_003 keeps `lastFrameTime` for `deltaSeconds`). -/
structure RunState (W R : Type) where
  world : W
  winnerFlag : Bool
  emitted : List R
  stopped : Bool
  lastElapsed : ℚ

/-- Initial loop state at race start. -/
def initRun {W R : Type} (w : W) : RunState W R :=
  { world := w, winnerFlag := false, emitted := [], stopped := false, lastElapsed := 0 }

/-- One invocation of `animate` at elapsed time `e`, generic in the world
update: apply the per-tick update, scan for finishers, emit at most one
winner guarded by the `finished` flag (lines 240-251 / 483-494), then
reschedule iff `(!finished && elapsed < RACE_DURATION) || extra`, where
`RACE_DURATION = 4500` and `extra` is part_003's stale `hasFalling`
disjunct (line 500); the horizontal variant has `extra = false`. -/
def stepRun {W R : Type} (fins : W → List R) (d : R → ℚ)
    (update : ℚ → ℚ → W → W) (extra : Bool) (s : RunState W R) (e : ℚ) :
    RunState W R :=
  if s.stopped then s
  else
    let w := update s.lastElapsed e s.world
    match s.winnerFlag, firstFinisher d (fins w) with
    | false, some win =>
      { world := w, winnerFlag := true, emitted := s.emitted ++ [win],
        stopped := !extra, lastElapsed := e }
    | _, _ =>
      { world := w, winnerFlag := s.winnerFlag, emitted := s.emitted,
        stopped := !((!s.winnerFlag && decide (e < 4500)) || extra),
        lastElapsed := e }

/-- A whole race: fold `animate` over the (chronological) list of frame
times.  Ticks arriving after the loop stopped rescheduling leave the state
unchanged (`stepRun` is the identity once `stopped`). -/
def runRace {W R : Type} (fins : W → List R) (d : R → ℚ)
    (update : ℚ → ℚ → W → W) (extra : Bool) (ticks : List ℚ)
    (s0 : RunState W R) : RunState W R :=
  ticks.foldl (stepRun fins d update extra) s0

/-- The `finished`-flag guard invariant: before any winner is emitted the
emission list is empty, and from the moment the flag is set it has exactly
one element. -/
def EmitInv {W R : Type} (s : RunState W R) : Prop :=
  (s.winnerFlag = false → s.emitted = []) ∧
    (s.winnerFlag = true → s.emitted.length = 1)

lemma stepRun_stopped {W R : Type} (fins : W → List R) (d : R → ℚ)
    (update : ℚ → ℚ → W → W) (extra : Bool) (s : RunState W R) (e : ℚ)
    (hs : s.stopped = true) : stepRun fins d update extra s e = s := by
  simp [stepRun, hs]

lemma stepRun_emitInv {W R : Type} (fins : W → List R) (d : R → ℚ)
    (update : ℚ → ℚ → W → W) (extra : Bool) (s : RunState W R) (e : ℚ)
    (h : EmitInv s) : EmitInv (stepRun fins d update extra s e) := by
  by_cases hs : s.stopped
  · rwa [stepRun_stopped _ _ _ _ _ _ hs]
  · unfold stepRun
    rw [if_neg hs]
    cases hw : s.winnerFlag with
    | false =>
      cases ho : firstFinisher d (fins (update s.lastElapsed e s.world)) with
      | none => simp only [hw, ho]; exact ⟨fun _ => h.1 hw, fun hc => by simp at hc⟩
      | some win =>
        simp only [hw, ho]
        refine ⟨fun hc => by simp at hc, fun _ => ?_⟩
        simp [h.1 hw]
    | true =>
      cases ho : firstFinisher d (fins (update s.lastElapsed e s.world)) with
      | none => simp only [hw, ho]; exact ⟨fun hc => by simp at hc, fun _ => h.2 hw⟩
      | some win => simp only [hw, ho]; exact ⟨fun hc => by simp at hc, fun _ => h.2 hw⟩

lemma runRace_emitInv {W R : Type} (fins : W → List R) (d : R → ℚ)
    (update : ℚ → ℚ → W → W) (extra : Bool) (ticks : List ℚ) :
    ∀ s0 : RunState W R, EmitInv s0 → EmitInv (runRace fins d update extra ticks s0) := by
  induction ticks with
  | nil => intro s0 h; exact h
  | cons t rest ih =>
    intro s0 h
    exact ih _ (stepRun_emitInv fins d update extra s0 t h)

lemma emitInv_length_le {W R : Type} {s : RunState W R} (h : EmitInv s) :
    s.emitted.length ≤ 1 := by
  cases hw : s.winnerFlag
  · simp [h.1 hw]
  · simp [h.2 hw]

lemma stepRun_flagTrue {W R : Type} (fins : W → List R) (d : R → ℚ)
    (update : ℚ → ℚ → W → W) (extra : Bool) (s : RunState W R) (e : ℚ)
    (h : s.winnerFlag = true) :
    (stepRun fins d update extra s e).winnerFlag = true ∧
      (stepRun fins d update extra s e).emitted = s.emitted := by
  by_cases hs : s.stopped
  · rw [stepRun_stopped _ _ _ _ _ _ hs]; exact ⟨h, rfl⟩
  · unfold stepRun
    rw [if_neg hs]
    cases ho : firstFinisher d (fins (update s.lastElapsed e s.world)) with
    | none => simp [h, ho]
    | some win => simp [h, ho]

lemma runRace_flagTrue {W R : Type} (fins : W → List R) (d : R → ℚ)
    (update : ℚ → ℚ → W → W) (extra : Bool) (ticks : List ℚ) :
    ∀ s : RunState W R, s.winnerFlag = true →
      (runRace fins d update extra ticks s).winnerFlag = true ∧
        (runRace fins d update extra ticks s).emitted = s.emitted := by
  induction ticks with
  | nil => intro s h; exact ⟨h, rfl⟩
  | cons t rest ih =>
    intro s h
    obtain ⟨h1, h2⟩ := stepRun_flagTrue fins d update extra s t h
    obtain ⟨h3, h4⟩ := ih _ h1
    exact ⟨h3, h4.trans h2⟩

/-- The finisher scan input: `updated.filter((r) => r.finished)`
(RacingGame.tsx 241). -/
def finsH (rs : List RacerH) : List RacerH := rs.filter (·.finished)

/-- Worker of `hUpdate`: apply `hStep` to every racer with its profile
(the `prevRacers.map((racer, idx) => ...)` of RacingGame.tsx 174). -/
def hUpdateGo (spinDraw : ℚ → ℕ → ℚ) (e : ℚ) :
    ℕ → List RacerH → List Profile → List RacerH
  | _, [], _ => []
  | _, _ :: _, [] => []
  | i, r :: rs, p :: ps =>
    hStep p e (spinDraw e i) r :: hUpdateGo spinDraw e (i + 1) rs ps

/-- The horizontal variant's per-tick world update: each racer is advanced
by `hStep` against `racerSpeedProfiles[idx]`.  `spinDraw e i` supplies the
`Math.random()` behind racer `i`'s spin wobble at elapsed `e`. -/
def hUpdate (profiles : List Profile) (spinDraw : ℚ → ℕ → ℚ) :
    ℚ → ℚ → List RacerH → List RacerH :=
  fun _lastE e rs => hUpdateGo spinDraw e 0 rs profiles

lemma hStep_finished {p : Profile} (hp : WFProfile p) {e : ℚ} (he : 3250 ≤ e)
    (spinR : ℚ) (r : RacerH) : (hStep p e spinR r).finished = true := by
  simp only [hStep, totalDistanceAt_full hp he]
  norm_num

lemma hUpdateGo_length (spinDraw : ℚ → ℕ → ℚ) (e : ℚ) :
    ∀ (i : ℕ) (rs : List RacerH) (ps : List Profile), rs.length = ps.length →
      (hUpdateGo spinDraw e i rs ps).length = rs.length := by
  intro i rs
  induction rs generalizing i with
  | nil => intro ps _; simp [hUpdateGo]
  | cons r rs ih =>
    intro ps hlen
    cases ps with
    | nil => simp at hlen
    | cons p ps => simp [hUpdateGo, ih (i + 1) ps (by simpa using hlen)]

lemma hUpdateGo_all_finished (spinDraw : ℚ → ℕ → ℚ) {e : ℚ} (he : 3250 ≤ e) :
    ∀ (i : ℕ) (rs : List RacerH) (ps : List Profile), (∀ p ∈ ps, WFProfile p) →
      ∀ r ∈ hUpdateGo spinDraw e i rs ps, r.finished = true := by
  intro i rs
  induction rs generalizing i with
  | nil => intro ps _ r hr; simp [hUpdateGo] at hr
  | cons r0 rs ih =>
    intro ps hwf r hr
    cases ps with
    | nil => simp [hUpdateGo] at hr
    | cons p ps =>
      simp only [hUpdateGo, List.mem_cons] at hr
      rcases hr with rfl | hr
      · exact hStep_finished (hwf p (by simp)) he _ _
      · exact ih (i + 1) ps (fun q hq => hwf q (by simp [hq])) r hr

/-- Loop invariant of the horizontal race run: the racer list keeps the
profiles' length, the emission guard holds, and the loop only ever stops
after having emitted exactly one winner. -/
def HInv (profiles : List Profile) (s : RunState (List RacerH) RacerH) : Prop :=
  s.world.length = profiles.length ∧ EmitInv s ∧
    (s.stopped = true → s.emitted.length = 1)

lemma finsH_ne_of_all_finished {rs : List RacerH} (hne : rs ≠ [])
    (hall : ∀ r ∈ rs, r.finished = true) : finsH rs ≠ [] := by
  cases rs with
  | nil => exact absurd rfl hne
  | cons r rest =>
    have : r ∈ finsH (r :: rest) := by
      simp [finsH, List.mem_filter, hall r (by simp)]
    exact List.ne_nil_of_mem this

lemma hStepRun_inv (profiles : List Profile) (spinDraw : ℚ → ℕ → ℚ)
    (hne : profiles ≠ []) (hwf : ∀ p ∈ profiles, WFProfile p)
    (s : RunState (List RacerH) RacerH) (e : ℚ) (h : HInv profiles s) :
    HInv profiles (stepRun finsH RacerH.totalDistance
      (hUpdate profiles spinDraw) false s e) := by
  by_cases hs : s.stopped
  · rwa [stepRun_stopped _ _ _ _ _ _ hs]
  · obtain ⟨hlen, hemit, hstop⟩ := h
    have hlen' : (hUpdate profiles spinDraw s.lastElapsed e s.world).length
        = profiles.length := by
      rw [hUpdate, hUpdateGo_length spinDraw e 0 s.world profiles hlen, hlen]
    have hemit' := stepRun_emitInv finsH RacerH.totalDistance
      (hUpdate profiles spinDraw) false s e hemit
    refine ⟨?_, hemit', ?_⟩
    · unfold stepRun
      rw [if_neg hs]
      cases hw : s.winnerFlag with
      | false =>
        cases ho : firstFinisher RacerH.totalDistance
            (finsH (hUpdate profiles spinDraw s.lastElapsed e s.world)) with
        | none => simpa [hw, ho] using hlen'
        | some win => simpa [hw, ho] using hlen'
      | true =>
        cases ho : firstFinisher RacerH.totalDistance
            (finsH (hUpdate profiles spinDraw s.lastElapsed e s.world)) with
        | none => simpa [hw, ho] using hlen'
        | some win => simpa [hw, ho] using hlen'
    · unfold stepRun
      rw [if_neg hs]
      cases hw : s.winnerFlag with
      | false =>
        cases ho : firstFinisher RacerH.totalDistance
            (finsH (hUpdate profiles spinDraw s.lastElapsed e s.world)) with
        | none =>
          simp only [hw, ho]
          intro hstp
          simp only [Bool.not_eq_true'] at hstp
          by_cases hlt : e < 4500
          · simp [hlt] at hstp
          · exfalso
            have he : (3250 : ℚ) ≤ e := by linarith [not_lt.mp hlt]
            have hwne : hUpdate profiles spinDraw s.lastElapsed e s.world ≠ [] := by
              intro hc
              rw [hc] at hlen'
              exact hne (List.eq_nil_of_length_eq_zero hlen'.symm)
            have hfne := finsH_ne_of_all_finished hwne
              (hUpdateGo_all_finished spinDraw he 0 s.world profiles hwf)
            cases hfe : finsH (hUpdate profiles spinDraw s.lastElapsed e s.world) with
            | nil => exact hfne hfe
            | cons a l => rw [hfe] at ho; simp [firstFinisher] at ho
        | some win =>
          simp only [hw, ho]
          intro _
          simp [hemit.1 hw]
      | true =>
        cases ho : firstFinisher RacerH.totalDistance
            (finsH (hUpdate profiles spinDraw s.lastElapsed e s.world)) with
        | none => simp only [hw, ho]; intro _; exact hemit.2 hw
        | some win => simp only [hw, ho]; intro _; exact hemit.2 hw

lemma hRunRace_inv (profiles : List Profile) (spinDraw : ℚ → ℕ → ℚ)
    (hne : profiles ≠ []) (hwf : ∀ p ∈ profiles, WFProfile p) (ticks : List ℚ) :
    ∀ s : RunState (List RacerH) RacerH, HInv profiles s →
      HInv profiles (runRace finsH RacerH.totalDistance
        (hUpdate profiles spinDraw) false ticks s) := by
  induction ticks with
  | nil => intro s h; exact h
  | cons t rest ih =>
    intro s h
    exact ih _ (hStepRun_inv profiles spinDraw hne hwf s t h)

/-- Processing a tick at elapsed ≥ 3250 ms guarantees the winner has been
emitted (now or earlier): afterwards the flag is set and exactly one
emission exists. -/
lemma hStepRun_emits (profiles : List Profile) (spinDraw : ℚ → ℕ → ℚ)
    (hne : profiles ≠ []) (hwf : ∀ p ∈ profiles, WFProfile p)
    (s : RunState (List RacerH) RacerH) (e : ℚ) (he : 3250 ≤ e)
    (h : HInv profiles s) :
    (stepRun finsH RacerH.totalDistance (hUpdate profiles spinDraw) false s e).winnerFlag
        = true ∧
      (stepRun finsH RacerH.totalDistance
        (hUpdate profiles spinDraw) false s e).emitted.length = 1 := by
  have h' := hStepRun_inv profiles spinDraw hne hwf s e h
  by_cases hs : s.stopped
  · rw [stepRun_stopped _ _ _ _ _ _ hs]
    have hlen1 := h.2.2 hs
    have hflag : s.winnerFlag = true := by
      cases hw : s.winnerFlag
      · rw [h.2.1.1 hw] at hlen1; simp at hlen1
      · rfl
    exact ⟨hflag, hlen1⟩
  · have hlen' : (hUpdate profiles spinDraw s.lastElapsed e s.world).length
        = profiles.length := by
      rw [hUpdate, hUpdateGo_length spinDraw e 0 s.world profiles h.1, h.1]
    have hwne : hUpdate profiles spinDraw s.lastElapsed e s.world ≠ [] := by
      intro hc
      rw [hc] at hlen'
      exact hne (List.eq_nil_of_length_eq_zero hlen'.symm)
    have hfne := finsH_ne_of_all_finished hwne
      (hUpdateGo_all_finished spinDraw he 0 s.world profiles hwf)
    unfold stepRun
    rw [if_neg hs]
    cases hw : s.winnerFlag with
    | false =>
      cases ho : firstFinisher RacerH.totalDistance
          (finsH (hUpdate profiles spinDraw s.lastElapsed e s.world)) with
      | none =>
        exfalso
        cases hfe : finsH (hUpdate profiles spinDraw s.lastElapsed e s.world) with
        | nil => exact hfne hfe
        | cons a l => rw [hfe] at ho; simp [firstFinisher] at ho
      | some win =>
        simp only [hw, ho]
        exact ⟨trivial, by simp [h.2.1.1 hw]⟩
    | true =>
      cases ho : firstFinisher RacerH.totalDistance
          (finsH (hUpdate profiles spinDraw s.lastElapsed e s.world)) with
      | none => simp only [hw, ho]; exact ⟨trivial, h.2.1.2 hw⟩
      | some win => simp only [hw, ho]; exact ⟨trivial, h.2.1.2 hw⟩

/-- Exactly-once emission for the horizontal variant: as soon as the frame
times reach 3250 ms (every well-formed profile finishes by then; the loop
keeps rescheduling until `RACE_DURATION = 4500`), the race has exactly one
`onWinner` call. -/
lemma hRunRace_exactlyOnce (profiles : List Profile) (spinDraw : ℚ → ℕ → ℚ)
    (hne : profiles ≠ []) (hwf : ∀ p ∈ profiles, WFProfile p)
    (rs : List RacerH) (hlen : rs.length = profiles.length)
    (ticks : List ℚ) (ht : ∃ t ∈ ticks, (3250 : ℚ) ≤ t) :
    (runRace finsH RacerH.totalDistance (hUpdate profiles spinDraw) false ticks
      (initRun rs)).emitted.length = 1 := by
  obtain ⟨t, hmem, h3250⟩ := ht
  obtain ⟨l1, l2, rfl⟩ := List.append_of_mem hmem
  have hinit : HInv profiles (initRun rs : RunState (List RacerH) RacerH) := by
    refine ⟨hlen, ⟨fun _ => rfl, fun hc => by simp [initRun] at hc⟩, fun hc => ?_⟩
    simp [initRun] at hc
  have h1 : HInv profiles (runRace finsH RacerH.totalDistance
      (hUpdate profiles spinDraw) false l1 (initRun rs)) :=
    hRunRace_inv profiles spinDraw hne hwf l1 _ hinit
  obtain ⟨hflag, hone⟩ := hStepRun_emits profiles spinDraw hne hwf _ t h3250 h1
  have hsplit : runRace finsH RacerH.totalDistance (hUpdate profiles spinDraw) false
      (l1 ++ t :: l2) (initRun rs)
      = runRace finsH RacerH.totalDistance (hUpdate profiles spinDraw) false l2
        (stepRun finsH RacerH.totalDistance (hUpdate profiles spinDraw) false
          (runRace finsH RacerH.totalDistance (hUpdate profiles spinDraw) false l1
            (initRun rs)) t) := by
    simp [runRace, List.foldl_append]
  rw [hsplit, (runRace_flagTrue _ _ _ _ l2 _ hflag).2]
  exact hone

/-- A participant record (`Entry` of `src/types`): stable id plus display
name. -/
structure Entry where
  id : ℤ
  name : String
deriving DecidableEq

/-- JS `allEntries.findIndex((e) => e.id === entry.id)`: first index whose
id matches, `-1` when absent. -/
def jsFindIndexId (l : List Entry) (target : Entry) : ℤ :=
  match l.findIdx? (fun e => decide (e.id = target.id)) with
  | some i => (i : ℤ)
  | none => -1

/-- Lane assignment (RacingGame.tsx 61 / part_003 141):
`Math.max(allEntries.findIndex((e) => e.id === entry.id), 0)`. -/
def laneIndexOf (allEntries : List Entry) (entry : Entry) : ℕ :=
  (max (jsFindIndexId allEntries entry) 0).toNat

/-- Lane count (RacingGame.tsx 298): `Math.max(allEntries.length, 2)`. -/
def numLanes (allEntries : List Entry) : ℕ := max allEntries.length 2

lemma findIdxId_self (l : List Entry) (hnodup : (l.map Entry.id).Nodup) :
    ∀ (i : ℕ) (hi : i < l.length),
      l.findIdx? (fun e => decide (e.id = (l.get ⟨i, hi⟩).id)) = some i := by
  induction l with
  | nil => intro i hi; simp at hi
  | cons a rest ih =>
    intro i hi
    match i with
    | 0 => simp [List.findIdx?_cons]
    | j + 1 =>
      have hj : j < rest.length := by simpa using hi
      have htarget : (a :: rest).get ⟨j + 1, hi⟩ = rest.get ⟨j, hj⟩ := rfl
      have hmem : rest.get ⟨j, hj⟩ ∈ rest := rest.get_mem _ _
      have hcons : a.id ∉ rest.map Entry.id ∧ (rest.map Entry.id).Nodup := by
        rw [List.map_cons, List.nodup_cons] at hnodup
        exact hnodup
      have hne : a.id ≠ (rest.get ⟨j, hj⟩).id := by
        intro hc
        exact hcons.1 (hc ▸ List.mem_map_of_mem Entry.id hmem)
      have hrest := ih hcons.2 j hj
      rw [htarget, List.findIdx?_cons, if_neg (by simpa using hne),
        List.findIdx?_succ, hrest]
      rfl

/-- With unique participant ids, the lane slot of the participant at
position `i` of the full roster is exactly `i`. -/
lemma laneIndexOf_get (l : List Entry) (hnodup : (l.map Entry.id).Nodup)
    (i : ℕ) (hi : i < l.length) : laneIndexOf l (l.get ⟨i, hi⟩) = i := by
  unfold laneIndexOf jsFindIndexId
  rw [findIdxId_self l hnodup i hi]
  simp

/-- Outcome of a controller action in `App.tsx`: show the too-few-racers
alert, declare a winner right away (via the 300 ms `setTimeout` into
`handleWinner`), actually start a simulated race (`setShowRace(true)`), or
do nothing. -/
inductive ControllerOutcome where
  | alertTooFew : ControllerOutcome
  | declareWinner : Entry → ControllerOutcome
  | runSimRace : ControllerOutcome
  | noAction : ControllerOutcome
deriving DecidableEq

/-- `entries.filter((e) => !eliminatedIds.includes(e.id))` (App.tsx 79/96). -/
def activeOf (entries : List Entry) (eliminatedIds : List ℤ) : List Entry :=
  entries.filter (fun e => !(eliminatedIds.contains e.id))

/-- `startRace` (App.tsx 95-113): alert when no active participant, declare
the single remaining participant winner without racing, otherwise start the
race. -/
def startRaceOutcome (entries : List Entry) (eliminatedIds : List ℤ) :
    ControllerOutcome :=
  match activeOf entries eliminatedIds with
  | [] => ControllerOutcome.alertTooFew
  | [e] => ControllerOutcome.declareWinner e
  | _ => ControllerOutcome.runSimRace

/-- `handleRaceComplete` (App.tsx 76-93): on "Next Race", declare the single
remaining participant winner without racing, start the next race when at
least two remain, otherwise do nothing. -/
def raceCompleteOutcome (entries : List Entry) (eliminatedIds : List ℤ) :
    ControllerOutcome :=
  match activeOf entries eliminatedIds with
  | [] => ControllerOutcome.noAction
  | [e] => ControllerOutcome.declareWinner e
  | _ => ControllerOutcome.runSimRace

/-- Track constants of part_003 (lines 81-96): `START_LINE = 555` (bottom),
`FINISH_LINE = 45` (top); racers move upward, so smaller `y` is closer to
the finish. -/
def START3 : ℚ := 555

def FINISH3 : ℚ := 45

/-- Racer state of the vertical variant (part_003 9-29), restricted to the
fields the simulation logic reads or writes (`color` and `vehicleMode` are
render-only).  The TS-optional fields are written by every constructor site
before being read, so they are plain fields here. -/
structure Racer3 where
  entryId : ℤ
  y : ℚ
  speed : ℚ
  finished : Bool
  totalDistance : ℚ
  previousSpeed : ℚ
  spinAngle : ℚ
  laneIndex : ℕ
  lateralPos : ℚ
  lateralTarget : ℚ
  lateralStartPos : ℚ
  lateralStartTime : ℚ
  lateralDuration : ℚ
  knockedOut : Bool
  isFalling : Bool
  fallY : ℚ
  fallVelocity : ℚ

/-- The knockout mutation (part_003 425-433, repeated at 452-460 and
470-478): stop the racer, start its fall at its current `y`, and clear
`finished`. -/
def knockRacer (r : Racer3) : Racer3 :=
  { r with
    knockedOut := true
    isFalling := true
    fallY := r.y
    fallVelocity := 0
    totalDistance := 0
    speed := 0
    previousSpeed := 0
    spinAngle := 0
    finished := false }

/-- The knocked-out branch of the per-racer update (part_003 302-322):
gravity-driven fall back to the start line; distance stays 0 and
`finished` stays false. -/
def koStep (dt : ℚ) (r : Racer3) : Racer3 :=
  let gravity : ℚ := 900
  let currentFallY := if r.isFalling then r.fallY else START3
  let currentVelocity := if r.isFalling then r.fallVelocity else 0
  let nextVelocity := currentVelocity + gravity * dt
  let nextY := min START3 (currentFallY + nextVelocity * dt)
  let landed : Bool := decide (START3 ≤ nextY)
  { r with
    y := nextY
    fallY := nextY
    fallVelocity := if landed then 0 else nextVelocity
    isFalling := !landed
    totalDistance := 0
    speed := 0
    previousSpeed := 0
    spinAngle := 0
    finished := false }

/-- The random draws one active racer consumes in one tick of part_003:
the 6% drift roll, the target-lane choice, the ease duration, and the spin
wobble. -/
structure LatDraw where
  roll : ℚ
  choice : ℚ
  dur : ℚ
  spin : ℚ

/-- `[currentLane - 1, currentLane, currentLane + 1].filter(lane => lane >= 0
&& lane < totalLanes)` (part_003 371-372). -/
def stepOptionsOf (currentLane : ℤ) (totalLanes : ℕ) : List ℤ :=
  [currentLane - 1, currentLane, currentLane + 1].filter
    (fun lane => decide (0 ≤ lane ∧ lane < (totalLanes : ℤ)))

/-- The active (not knocked-out) branch of the per-racer update
(part_003 324-404): segment integration, clamped `y`, current-speed lookup,
probabilistic lateral drift with smoothstep easing, and the spin wobble. -/
def activeStep3 (p : Profile) (totalLanes : ℕ) (elapsed : ℚ) (env : LatDraw)
    (r : Racer3) : Racer3 :=
  let totalDistance := totalDistanceAt p elapsed
  let y := max (START3 - totalDistance) FINISH3
  let isFinished : Bool := decide (y ≤ FINISH3)
  let currentSpeed := currentSpeedOf p totalDistance
  let prevSpeed := if r.previousSpeed = 0 then currentSpeed else r.previousSpeed
  let lateralElapsed := elapsed - r.lateralStartTime
  let lateralFinished := r.lateralDuration ≤ 0 ∨ r.lateralDuration ≤ lateralElapsed
  let drifting : Bool := decide lateralFinished && decide (env.roll < 6/100)
  let next4 : ℚ × ℚ × ℚ × ℚ :=
    if drifting then
      let currentLane : ℤ := round r.lateralPos
      let opts := stepOptionsOf currentLane totalLanes
      let n0 : ℤ := opts.getD (⌊env.choice * opts.length⌋).toNat currentLane
      let nextTarget : ℤ :=
        if (n0 : ℚ) = r.lateralTarget ∧ 1 < opts.length then
          opts.getD ((opts.indexOf n0 + 1) % opts.length) currentLane
        else n0
      (r.lateralPos, (nextTarget : ℚ), elapsed, 350 + env.dur * 650)
    else (r.lateralStartPos, r.lateralTarget, r.lateralStartTime, r.lateralDuration)
  let sp := next4.1
  let tgt := next4.2.1
  let st := next4.2.2.1
  let dur := next4.2.2.2
  let lateralPos1 :=
    if 0 < dur then
      let t := min 1 (max 0 ((elapsed - st) / dur))
      let eased := if t < 1/2 then 2 * t * t else 1 - ((-2) * t + 2) ^ 2 / 2
      sp + (tgt - sp) * eased
    else r.lateralPos
  let lateralPos2 := max 0 (min ((totalLanes : ℚ) - 1) lateralPos1)
  { r with
    y := y
    totalDistance := totalDistance
    speed := currentSpeed
    previousSpeed := currentSpeed
    spinAngle := if 20 < prevSpeed - currentSpeed
      then r.spinAngle + (env.spin - 1/2) * (2/5)
      else r.spinAngle * (95/100)
    finished := isFinished
    lateralPos := lateralPos2
    lateralTarget := tgt
    lateralStartPos := sp
    lateralStartTime := st
    lateralDuration := dur }

/-- Screen x-coordinate of a racer (part_003 414-415):
`trackLeft + lanePos * laneWidth + laneWidth / 2` with
`lanePos = racer.lateralPos ?? racer.laneIndex`. -/
def xOf (trackLeft laneWidth : ℚ) (r : Racer3) : ℚ :=
  trackLeft + r.lateralPos * laneWidth + laneWidth / 2

/-- The pairwise collision check (part_003 423): forward positions within
`collisionY = 14` and screen x-positions within `collisionX =
laneWidth * 0.35`. -/
def collide (trackLeft laneWidth : ℚ) (a b : Racer3) : Bool :=
  decide (|a.y - b.y| < 14) &&
    decide (|xOf trackLeft laneWidth a - xOf trackLeft laneWidth b| <
      laneWidth * (35/100))

/-- Inner `j` loop of the collision pass (part_003 417-435).  `racerA` is
index `i`; its activity flags were checked once before the loop, so they are
not re-checked here (matching the source, where `racerA` stays aliased even
if it gets knocked out mid-loop). -/
def innerPass (trackLeft laneWidth : ℚ) (i : ℕ) :
    ℕ → ℕ → List Racer3 → List Racer3
  | 0, _, arr => arr
  | fuel + 1, j, arr =>
    match arr[i]?, arr[j]? with
    | some racerA, some racerB =>
      if racerB.finished || racerB.knockedOut then
        innerPass trackLeft laneWidth i fuel (j + 1) arr
      else if collide trackLeft laneWidth racerA racerB then
        if racerB.y < racerA.y then
          innerPass trackLeft laneWidth i fuel (j + 1) (arr.set i (knockRacer racerA))
        else
          innerPass trackLeft laneWidth i fuel (j + 1) (arr.set j (knockRacer racerB))
      else innerPass trackLeft laneWidth i fuel (j + 1) arr
    | _, _ => arr

/-- Outer `i` loop of the collision pass (part_003 411-436): skip finished
or knocked-out `racerA`, otherwise run the inner loop over `j > i`. -/
def outerPass (trackLeft laneWidth : ℚ) :
    ℕ → ℕ → List Racer3 → List Racer3
  | 0, _, arr => arr
  | fuel + 1, i, arr =>
    let arr' := match arr[i]? with
      | some racerA =>
        if racerA.finished || racerA.knockedOut then arr
        else innerPass trackLeft laneWidth i (arr.length - (i + 1)) (i + 1) arr
      | none => arr
    outerPass trackLeft laneWidth fuel (i + 1) arr'

/-- The whole pairwise collision pass of one tick (part_003 407-436). -/
def collisionPass (trackLeft laneWidth : ℚ) (arr : List Racer3) : List Racer3 :=
  outerPass trackLeft laneWidth arr.length 0 arr

/-- A falling obstacle (part_003 41-47). -/
structure Obstacle where
  x : ℚ
  y : ℚ
  vy : ℚ
  vx : ℚ
  size : ℚ

/-- A crossing bird (part_003 49-54). -/
structure Bird where
  x : ℚ
  y : ℚ
  vx : ℚ
  size : ℚ

/-- Obstacle overlap test (part_003 445-449). -/
def obstacleHits (obstacles : List Obstacle) (x y : ℚ) : Bool :=
  obstacles.any (fun o =>
    decide (|o.x - x| < o.size * (7/10)) && decide (|o.y - y| < o.size * (7/10)))

/-- Bird overlap test (part_003 463-467). -/
def birdHits (birds : List Bird) (x y : ℚ) : Bool :=
  birds.any (fun b =>
    decide (|b.x - x| < b.size * (9/10)) && decide (|b.y - y| < b.size * (6/10)))

/-- The hazard pass (part_003 438-480): knock out every active racer that
overlaps an obstacle or a bird.  Each racer is handled independently, so the
index loop is a `map`; the sequential obstacle-then-bird double knock of the
source is idempotent (`y` is unchanged by `knockRacer`). -/
def hazardPass (obstacles : List Obstacle) (birds : List Bird)
    (trackLeft laneWidth : ℚ) (arr : List Racer3) : List Racer3 :=
  arr.map (fun r =>
    if r.finished || r.knockedOut then r
    else if obstacleHits obstacles (xOf trackLeft laneWidth r) r.y ||
        birdHits birds (xOf trackLeft laneWidth r) r.y then knockRacer r
    else r)

/-- The empty profile used as an (unreachable) out-of-range default for
`racerSpeedProfiles[idx]`. -/
def defProfile : Profile := { speeds := [], segmentDistance := 0 }

/-- `prevRacers.map((racer, idx) => ...)` of part_003 (lines 300-405):
knocked-out racers fall, the rest integrate and drift. -/
def tickRacersGo (profiles : List Profile) (totalLanes : ℕ)
    (draws : ℕ → LatDraw) (dt elapsed : ℚ) : ℕ → List Racer3 → List Racer3
  | _, [] => []
  | idx, r :: rs =>
    (if r.knockedOut then koStep dt r
     else activeStep3 (profiles.getD idx defProfile) totalLanes elapsed
        (draws idx) r) ::
      tickRacersGo profiles totalLanes draws dt elapsed (idx + 1) rs

/-- One tick's racer update of part_003 (the `setRacers` updater, lines
300-497): per-racer update, then the collision pass, then the hazard pass;
the winner scan afterwards reads this result. -/
def tick3 (profiles : List Profile) (totalLanes : ℕ) (trackLeft laneWidth : ℚ)
    (obstacles : List Obstacle) (birds : List Bird) (draws : ℕ → LatDraw)
    (dt elapsed : ℚ) (racers : List Racer3) : List Racer3 :=
  hazardPass obstacles birds trackLeft laneWidth
    (collisionPass trackLeft laneWidth
      (tickRacersGo profiles totalLanes draws dt elapsed 0 racers))

/-- World of one part_003 race: racers plus the hazard field. -/
structure World3 where
  racers : List Racer3
  obstacles : List Obstacle
  birds : List Bird

/-- Finisher scan input of part_003 (line 484). -/
def fins3 (w : World3) : List Racer3 := w.racers.filter (·.finished)

/-- Per-tick world update of part_003 (lines 241-497).  The obstacle and
bird dynamics (lines 247-298) are probabilistic spawn/advance code driven
by `Math.random()`; they are abstracted as the supplied evolution functions
`obsEvolve`/`birdEvolve` (the racer-side theorems below hold for every
possible hazard behaviour, hence for the source's).  `deltaSeconds =
Math.max(0.001, (now - lastFrameTime) / 1000)` (line 244). -/
def update3 (profiles : List Profile) (totalLanes : ℕ) (trackLeft laneWidth : ℚ)
    (obsEvolve : ℚ → ℚ → World3 → List Obstacle)
    (birdEvolve : ℚ → ℚ → World3 → List Bird)
    (latDraw : ℚ → ℕ → LatDraw) (lastE e : ℚ) (w : World3) : World3 :=
  let dt := max (1/1000) ((e - lastE) / 1000)
  let obstacles := obsEvolve lastE e w
  let birds := birdEvolve lastE e w
  { racers := tick3 profiles totalLanes trackLeft laneWidth obstacles birds
      (latDraw e) dt e w.racers
    obstacles := obstacles
    birds := birds }

lemma knockRacer_y (r : Racer3) : (knockRacer r).y = r.y := rfl

lemma knockRacer_lateralPos (r : Racer3) : (knockRacer r).lateralPos = r.lateralPos := rfl

lemma knockRacer_knockedOut (r : Racer3) : (knockRacer r).knockedOut = true := rfl

lemma collide_congr (tl lw : ℚ) {a a' b b' : Racer3}
    (hya : a.y = a'.y) (hla : a.lateralPos = a'.lateralPos)
    (hyb : b.y = b'.y) (hlb : b.lateralPos = b'.lateralPos) :
    collide tl lw a b = collide tl lw a' b' := by
  simp [collide, xOf, hya, hla, hyb, hlb]

lemma innerPass_length (tl lw : ℚ) (i : ℕ) :
    ∀ (fuel j : ℕ) (arr : List Racer3),
      (innerPass tl lw i fuel j arr).length = arr.length := by
  intro fuel
  induction fuel with
  | zero => intro j arr; rfl
  | succ fuel ih =>
    intro j arr
    unfold innerPass
    cases hA : arr[i]? with
    | none => rfl
    | some racerA =>
      cases hB : arr[j]? with
      | none => rfl
      | some racerB =>
        simp only
        by_cases h1 : (racerB.finished || racerB.knockedOut) = true
        · rw [if_pos h1, ih]
        · rw [if_neg h1]
          by_cases h2 : collide tl lw racerA racerB = true
          · rw [if_pos h2]
            by_cases h3 : racerB.y < racerA.y
            · rw [if_pos h3, ih, List.length_set]
            · rw [if_neg h3, ih, List.length_set]
          · rw [if_neg h2, ih]

lemma outerPass_length (tl lw : ℚ) :
    ∀ (fuel i : ℕ) (arr : List Racer3),
      (outerPass tl lw fuel i arr).length = arr.length := by
  intro fuel
  induction fuel with
  | zero => intro i arr; rfl
  | succ fuel ih =>
    intro i arr
    unfold outerPass
    cases hA : arr[i]? with
    | none => simp only; rw [ih]
    | some racerA =>
      simp only
      by_cases h1 : (racerA.finished || racerA.knockedOut) = true
      · rw [if_pos h1, ih]
      · rw [if_neg h1, ih, innerPass_length]

lemma collisionPass_length (tl lw : ℚ) (arr : List Racer3) :
    (collisionPass tl lw arr).length = arr.length := outerPass_length tl lw _ 0 arr

/-- A racer already knocked out when the collision pass starts is never
touched by it: both loops skip knocked-out racers before any write. -/
lemma innerPass_stable_ko (tl lw : ℚ) (i : ℕ) {k : ℕ} {v : Racer3}
    (hik : i ≠ k) (hv : v.knockedOut = true) :
    ∀ (fuel j : ℕ) (arr : List Racer3), arr[k]? = some v →
      (innerPass tl lw i fuel j arr)[k]? = some v := by
  intro fuel
  induction fuel with
  | zero => intro j arr hk; exact hk
  | succ fuel ih =>
    intro j arr hk
    unfold innerPass
    cases hA : arr[i]? with
    | none => exact hk
    | some racerA =>
      cases hB : arr[j]? with
      | none => exact hk
      | some racerB =>
        simp only
        by_cases h1 : (racerB.finished || racerB.knockedOut) = true
        · rw [if_pos h1]; exact ih _ _ hk
        · rw [if_neg h1]
          have hjk : j ≠ k := by
            intro hjkeq
            subst hjkeq
            rw [hk] at hB
            cases hB
            simp [hv] at h1
          by_cases h2 : collide tl lw racerA racerB = true
          · rw [if_pos h2]
            by_cases h3 : racerB.y < racerA.y
            · rw [if_pos h3]
              exact ih _ _ (by rw [List.getElem?_set_ne hik]; exact hk)
            · rw [if_neg h3]
              exact ih _ _ (by rw [List.getElem?_set_ne hjk]; exact hk)
          · rw [if_neg h2]; exact ih _ _ hk

lemma outerPass_stable_ko (tl lw : ℚ) {k : ℕ} {v : Racer3}
    (hv : v.knockedOut = true) :
    ∀ (fuel i : ℕ) (arr : List Racer3), arr[k]? = some v →
      (outerPass tl lw fuel i arr)[k]? = some v := by
  intro fuel
  induction fuel with
  | zero => intro i arr hk; exact hk
  | succ fuel ih =>
    intro i arr hk
    unfold outerPass
    by_cases hik : i = k
    · subst hik
      rw [hk]
      simp only
      rw [if_pos (by simp [hv])]
      exact ih _ _ hk
    · cases hA : arr[i]? with
      | none => exact ih _ _ hk
      | some racerA =>
        simp only
        by_cases h1 : (racerA.finished || racerA.knockedOut) = true
        · rw [if_pos h1]; exact ih _ _ hk
        · rw [if_neg h1]
          exact ih _ _ (innerPass_stable_ko tl lw i hik hv _ _ arr hk)

lemma collisionPass_stable_ko (tl lw : ℚ) {k : ℕ} {v : Racer3}
    (hv : v.knockedOut = true) (arr : List Racer3) (hk : arr[k]? = some v) :
    (collisionPass tl lw arr)[k]? = some v :=
  outerPass_stable_ko tl lw hv _ 0 arr hk

lemma hazardPass_stable_ko (obstacles : List Obstacle) (birds : List Bird)
    (tl lw : ℚ) {k : ℕ} {v : Racer3} (hv : v.knockedOut = true)
    (arr : List Racer3) (hk : arr[k]? = some v) :
    (hazardPass obstacles birds tl lw arr)[k]? = some v := by
  unfold hazardPass
  rw [List.getElem?_map, hk]
  simp [hv]

lemma collide_symm (tl lw : ℚ) (a b : Racer3) :
    collide tl lw a b = collide tl lw b a := by
  simp [collide, abs_sub_comm]

/-- The collision pass only changes knockout bookkeeping, never a position:
every index keeps its `y` and `lateralPos`. -/
def SamePosArr (arr0 arr : List Racer3) : Prop :=
  ∀ k : ℕ, (arr[k]?).map (fun r => (r.y, r.lateralPos))
    = (arr0[k]?).map (fun r => (r.y, r.lateralPos))

/-- Index `k` was knocked out against a partner `j` that was at least as
close to the finish (`y` at most `k`'s) and within both collision
thresholds, judged on the pass's input positions. -/
def KnockWitness (tl lw : ℚ) (arr0 : List Racer3) (k : ℕ) : Prop :=
  ∃ j v w, j ≠ k ∧ arr0[j]? = some v ∧ arr0[k]? = some w ∧
    collide tl lw v w = true ∧ v.y ≤ w.y

/-- Pass invariant: positions unchanged, and every knocked-out racer was
either knocked out on entry or has a collision partner at least as close to
the finish. -/
def KnockOrigin (tl lw : ℚ) (arr0 arr : List Racer3) : Prop :=
  SamePosArr arr0 arr ∧
    ∀ k r, arr[k]? = some r → r.knockedOut = true →
      (∃ w, arr0[k]? = some w ∧ w.knockedOut = true) ∨ KnockWitness tl lw arr0 k

lemma knockOrigin_refl (tl lw : ℚ) (arr : List Racer3) :
    KnockOrigin tl lw arr arr :=
  ⟨fun _ => rfl, fun _ r hk hko => Or.inl ⟨r, hk, hko⟩⟩

lemma samePos_extract {arr0 arr : List Racer3} (hpos : SamePosArr arr0 arr)
    {n : ℕ} {B : Racer3} (hn : arr[n]? = some B) :
    ∃ v, arr0[n]? = some v ∧ v.y = B.y ∧ v.lateralPos = B.lateralPos := by
  have h0 := hpos n
  rw [hn] at h0
  cases hv : arr0[n]? with
  | none => rw [hv] at h0; simp at h0
  | some v =>
    rw [hv] at h0
    simp only [Option.map_some', Option.some.injEq, Prod.mk.injEq] at h0
    exact ⟨v, rfl, h0.1.symm, h0.2.symm⟩

lemma knockOrigin_set (tl lw : ℚ) {arr0 arr : List Racer3}
    (h : KnockOrigin tl lw arr0 arr) {m n : ℕ} {A B : Racer3} (hnm : n ≠ m)
    (hm : arr[m]? = some A) (hn : arr[n]? = some B)
    (hcol : collide tl lw A B = true) (hy : B.y ≤ A.y) :
    KnockOrigin tl lw arr0 (arr.set m (knockRacer A)) := by
  obtain ⟨hpos, horigin⟩ := h
  have hmlt : m < arr.length := by
    by_contra hge
    rw [List.getElem?_eq_none (by omega)] at hm
    cases hm
  constructor
  · intro k
    by_cases hkm : k = m
    · subst hkm
      rw [List.getElem?_set_self hmlt]
      have h0 := hpos k
      rw [hm] at h0
      rw [← h0]
      simp [knockRacer_y, knockRacer_lateralPos]
    · rw [List.getElem?_set_ne (fun hc => hkm hc.symm)]
      exact hpos k
  · intro k r hk hko
    by_cases hkm : k = m
    · subst hkm
      right
      obtain ⟨v, hv0, hvy, hvl⟩ := samePos_extract hpos hn
      obtain ⟨w, hw0, hwy, hwl⟩ := samePos_extract hpos hm
      refine ⟨n, v, w, hnm, hv0, hw0, ?_, ?_⟩
      · rw [collide_congr tl lw hvy hvl hwy hwl, collide_symm]
        exact hcol
      · rw [hvy, hwy]; exact hy
    · rw [List.getElem?_set_ne (fun hc => hkm hc.symm)] at hk
      exact horigin k r hk hko

lemma innerPass_knockOrigin (tl lw : ℚ) (i : ℕ) :
    ∀ (fuel j : ℕ), i < j → ∀ (arr0 arr : List Racer3),
      KnockOrigin tl lw arr0 arr →
      KnockOrigin tl lw arr0 (innerPass tl lw i fuel j arr) := by
  intro fuel
  induction fuel with
  | zero => intro j _ arr0 arr h; exact h
  | succ fuel ih =>
    intro j hij arr0 arr h
    unfold innerPass
    cases hA : arr[i]? with
    | none => exact h
    | some racerA =>
      cases hB : arr[j]? with
      | none => exact h
      | some racerB =>
        simp only
        by_cases h1 : (racerB.finished || racerB.knockedOut) = true
        · rw [if_pos h1]; exact ih _ (by omega) _ _ h
        · rw [if_neg h1]
          by_cases h2 : collide tl lw racerA racerB = true
          · rw [if_pos h2]
            by_cases h3 : racerB.y < racerA.y
            · rw [if_pos h3]
              exact ih _ (by omega) _ _
                (knockOrigin_set tl lw h (by omega) hA hB h2 (le_of_lt h3))
            · rw [if_neg h3]
              exact ih _ (by omega) _ _
                (knockOrigin_set tl lw h (by omega) hB hA
                  ((collide_symm tl lw racerA racerB) ▸ h2) (le_of_not_lt h3))
          · rw [if_neg h2]; exact ih _ (by omega) _ _ h

lemma outerPass_knockOrigin (tl lw : ℚ) :
    ∀ (fuel i : ℕ) (arr0 arr : List Racer3), KnockOrigin tl lw arr0 arr →
      KnockOrigin tl lw arr0 (outerPass tl lw fuel i arr) := by
  intro fuel
  induction fuel with
  | zero => intro i arr0 arr h; exact h
  | succ fuel ih =>
    intro i arr0 arr h
    unfold outerPass
    cases hA : arr[i]? with
    | none => exact ih _ _ _ h
    | some racerA =>
      simp only
      by_cases h1 : (racerA.finished || racerA.knockedOut) = true
      · rw [if_pos h1]; exact ih _ _ _ h
      · rw [if_neg h1]
        exact ih _ _ _ (innerPass_knockOrigin tl lw i _ _ (by omega) _ _ h)

lemma collisionPass_knockOrigin (tl lw : ℚ) (arr : List Racer3) :
    KnockOrigin tl lw arr (collisionPass tl lw arr) :=
  outerPass_knockOrigin tl lw _ 0 arr arr (knockOrigin_refl tl lw arr)

/-- State invariant of a knocked-out racer: flag set, not finished, falling
state consistent (nonnegative fall speed, at or above the start line, `fallY`
tracking `y`).  Established by `knockRacer` and preserved by `koStep`. -/
def KOInv (r : Racer3) : Prop :=
  r.knockedOut = true ∧ r.finished = false ∧ 0 ≤ r.fallVelocity ∧
    r.y ≤ START3 ∧ r.fallY = r.y

lemma knockRacer_koInv (r : Racer3) (hy : r.y ≤ START3) : KOInv (knockRacer r) :=
  ⟨rfl, rfl, le_refl 0, hy, rfl⟩

lemma koStep_koInv (dt : ℚ) (hdt : 0 ≤ dt) (r : Racer3) (h : KOInv r) :
    KOInv (koStep dt r) ∧ r.y ≤ (koStep dt r).y := by
  obtain ⟨hko, _hfin, hvel, hy, hfy⟩ := h
  have hcv : 0 ≤ (if r.isFalling then r.fallVelocity else 0) := by
    split <;> simp [hvel]
  have hnv : 0 ≤ (if r.isFalling then r.fallVelocity else 0) + 900 * dt := by
    positivity
  have hcf1 : r.y ≤ (if r.isFalling then r.fallY else START3) := by
    split
    · rw [hfy]
    · exact hy
  have hyle : r.y ≤ min START3
      ((if r.isFalling then r.fallY else START3) +
        ((if r.isFalling then r.fallVelocity else 0) + 900 * dt) * dt) := by
    refine le_min hy ?_
    have : 0 ≤ ((if r.isFalling then r.fallVelocity else 0) + 900 * dt) * dt :=
      mul_nonneg hnv hdt
    linarith
  refine ⟨⟨hko, rfl, ?_, ?_, rfl⟩, ?_⟩
  · show (0 : ℚ) ≤ (koStep dt r).fallVelocity
    unfold koStep
    simp only
    have h900 : (0 : ℚ) ≤ 900 * dt :=
      mul_nonneg (by norm_num) hdt
    split_ifs <;> simp_all
  · show (koStep dt r).y ≤ START3
    unfold koStep
    simp only
    exact min_le_left _ _
  · show r.y ≤ (koStep dt r).y
    unfold koStep
    simp only
    exact hyle

lemma koStep_knockedOut (dt : ℚ) (r : Racer3) :
    (koStep dt r).knockedOut = r.knockedOut := rfl

lemma koStep_finished (dt : ℚ) (r : Racer3) : (koStep dt r).finished = false := rfl

lemma tickRacersGo_getElem (profiles : List Profile) (totalLanes : ℕ)
    (draws : ℕ → LatDraw) (dt e : ℚ) :
    ∀ (idx : ℕ) (rs : List Racer3) (k : ℕ) (v : Racer3), rs[k]? = some v →
      (tickRacersGo profiles totalLanes draws dt e idx rs)[k]? =
        some (if v.knockedOut then koStep dt v
          else activeStep3 (profiles.getD (idx + k) defProfile) totalLanes e
            (draws (idx + k)) v) := by
  intro idx rs
  induction rs generalizing idx with
  | nil => intro k v hk; simp at hk
  | cons r rest ih =>
    intro k v hk
    match k with
    | 0 =>
      simp only [List.getElem?_cons_zero, Option.some.injEq] at hk
      subst hk
      simp [tickRacersGo]
    | k' + 1 =>
      have hk' : rest[k']? = some v := by simpa using hk
      have hcons : tickRacersGo profiles totalLanes draws dt e idx (r :: rest)
          = (if r.knockedOut then koStep dt r
              else activeStep3 (profiles.getD idx defProfile) totalLanes e
                (draws idx) r)
            :: tickRacersGo profiles totalLanes draws dt e (idx + 1) rest := rfl
      rw [hcons, List.getElem?_cons_succ, ih (idx + 1) k' v hk']
      have harith : idx + 1 + k' = idx + (k' + 1) := by omega
      rw [harith]

lemma tickRacersGo_length (profiles : List Profile) (totalLanes : ℕ)
    (draws : ℕ → LatDraw) (dt e : ℚ) :
    ∀ (idx : ℕ) (rs : List Racer3),
      (tickRacersGo profiles totalLanes draws dt e idx rs).length = rs.length := by
  intro idx rs
  induction rs generalizing idx with
  | nil => rfl
  | cons r rest ih => simp [tickRacersGo, ih]

lemma tick3_length (profiles : List Profile) (totalLanes : ℕ) (tl lw : ℚ)
    (obstacles : List Obstacle) (birds : List Bird) (draws : ℕ → LatDraw)
    (dt e : ℚ) (racers : List Racer3) :
    (tick3 profiles totalLanes tl lw obstacles birds draws dt e racers).length
      = racers.length := by
  unfold tick3 hazardPass
  rw [List.length_map, collisionPass_length, tickRacersGo_length]

/-- A racer knocked out before a tick comes out of the whole tick as exactly
its `koStep`: the collision and hazard passes skip knocked-out racers. -/
lemma tick3_ko (profiles : List Profile) (totalLanes : ℕ) (tl lw : ℚ)
    (obstacles : List Obstacle) (birds : List Bird) (draws : ℕ → LatDraw)
    (dt e : ℚ) (racers : List Racer3) (k : ℕ) (v : Racer3)
    (hk : racers[k]? = some v) (hko : v.knockedOut = true) :
    (tick3 profiles totalLanes tl lw obstacles birds draws dt e racers)[k]?
      = some (koStep dt v) := by
  unfold tick3
  have h1 := tickRacersGo_getElem profiles totalLanes draws dt e 0 racers k v hk
  rw [if_pos hko] at h1
  have hko2 : (koStep dt v).knockedOut = true := by
    rw [koStep_knockedOut, hko]
  exact hazardPass_stable_ko obstacles birds tl lw hko2 _
    (collisionPass_stable_ko tl lw hko2 _ h1)

lemma firstFinisher_mem {α : Type} (d : α → ℚ) (l : List α) (w : α)
    (h : firstFinisher d l = some w) : w ∈ l := by
  cases l with
  | nil => simp [firstFinisher] at h
  | cons a t =>
    obtain ⟨i, hi, heq, _, _⟩ := firstFinisher_argmax d (a :: t) (by simp)
    rw [heq] at h
    cases h
    exact (a :: t).get_mem _ _

/-- Generic world-predicate preservation through the animation loop. -/
lemma stepRun_world_pred {W R : Type} (fins : W → List R) (d : R → ℚ)
    (update : ℚ → ℚ → W → W) (extra : Bool) (P : W → Prop)
    (hP : ∀ lastE e w, P w → P (update lastE e w)) (s : RunState W R) (e : ℚ)
    (h : P s.world) : P ((stepRun fins d update extra s e).world) := by
  by_cases hs : s.stopped
  · rwa [stepRun_stopped _ _ _ _ _ _ hs]
  · unfold stepRun
    rw [if_neg hs]
    cases hw : s.winnerFlag with
    | false =>
      cases ho : firstFinisher d (fins (update s.lastElapsed e s.world)) with
      | none => simp only [hw, ho]; exact hP _ _ _ h
      | some win => simp only [hw, ho]; exact hP _ _ _ h
    | true =>
      cases ho : firstFinisher d (fins (update s.lastElapsed e s.world)) with
      | none => simp only [hw, ho]; exact hP _ _ _ h
      | some win => simp only [hw, ho]; exact hP _ _ _ h

lemma runRace_world_pred {W R : Type} (fins : W → List R) (d : R → ℚ)
    (update : ℚ → ℚ → W → W) (extra : Bool) (P : W → Prop)
    (hP : ∀ lastE e w, P w → P (update lastE e w)) (ticks : List ℚ) :
    ∀ s : RunState W R, P s.world →
      P ((runRace fins d update extra ticks s).world) := by
  induction ticks with
  | nil => intro s h; exact h
  | cons t rest ih =>
    intro s h
    exact ih _ (stepRun_world_pred fins d update extra P hP s t h)

/-- Every emitted winner came out of the finisher scan of some tick's updated
world. -/
lemma stepRun_emitted_pred {W R : Type} (fins : W → List R) (d : R → ℚ)
    (update : ℚ → ℚ → W → W) (extra : Bool) (phi : R → Prop)
    (hphi : ∀ w r, r ∈ fins w → phi r) (s : RunState W R) (e : ℚ)
    (h : ∀ r ∈ s.emitted, phi r) :
    ∀ r ∈ (stepRun fins d update extra s e).emitted, phi r := by
  by_cases hs : s.stopped
  · rwa [stepRun_stopped _ _ _ _ _ _ hs]
  · unfold stepRun
    rw [if_neg hs]
    cases hw : s.winnerFlag with
    | false =>
      cases ho : firstFinisher d (fins (update s.lastElapsed e s.world)) with
      | none => simp only [hw, ho]; exact h
      | some win =>
        simp only [hw, ho]
        intro r hr
        rcases List.mem_append.mp hr with hr | hr
        · exact h r hr
        · have : r = win := by simpa using hr
          subst this
          exact hphi _ _ (firstFinisher_mem d _ _ ho)
    | true =>
      cases ho : firstFinisher d (fins (update s.lastElapsed e s.world)) with
      | none => simp only [hw, ho]; exact h
      | some win => simp only [hw, ho]; exact h

lemma runRace_emitted_pred {W R : Type} (fins : W → List R) (d : R → ℚ)
    (update : ℚ → ℚ → W → W) (extra : Bool) (phi : R → Prop)
    (hphi : ∀ w r, r ∈ fins w → phi r) (ticks : List ℚ) :
    ∀ s : RunState W R, (∀ r ∈ s.emitted, phi r) →
      ∀ r ∈ (runRace fins d update extra ticks s).emitted, phi r := by
  induction ticks with
  | nil => intro s h; exact h
  | cons t rest ih =>
    intro s h
    exact ih _ (stepRun_emitted_pred fins d update extra phi hphi s t h)

lemma runRace_stopped {W R : Type} (fins : W → List R) (d : R → ℚ)
    (update : ℚ → ℚ → W → W) (extra : Bool) (ticks : List ℚ)
    (s : RunState W R) (hs : s.stopped = true) :
    runRace fins d update extra ticks s = s := by
  induction ticks with
  | nil => rfl
  | cons t rest ih =>
    show runRace fins d update extra rest (stepRun fins d update extra s t) = s
    rw [stepRun_stopped _ _ _ _ _ _ hs, ih]

/-- Degenerate field: every racer knocked out. -/
def AllKO (w : World3) : Prop := ∀ r ∈ w.racers, r.knockedOut = true

lemma tick3_allKO (profiles : List Profile) (totalLanes : ℕ) (tl lw : ℚ)
    (obstacles : List Obstacle) (birds : List Bird) (draws : ℕ → LatDraw)
    (dt e : ℚ) (racers : List Racer3) (h : ∀ r ∈ racers, r.knockedOut = true) :
    ∀ r ∈ tick3 profiles totalLanes tl lw obstacles birds draws dt e racers,
      r.knockedOut = true ∧ r.finished = false := by
  intro r hr
  obtain ⟨k, hk⟩ := List.getElem?_of_mem hr
  have hklt : k < racers.length := by
    have h1 : k < (tick3 profiles totalLanes tl lw obstacles birds draws dt e
        racers).length := by
      by_contra hge
      rw [List.getElem?_eq_none (by omega)] at hk
      cases hk
    rwa [tick3_length] at h1
  obtain ⟨v, hv⟩ : ∃ v, racers[k]? = some v :=
    ⟨racers.get ⟨k, hklt⟩, by
      rw [List.getElem?_eq_getElem hklt]
      rfl⟩
  have hmem : v ∈ racers := List.getElem?_mem hv
  have hko := h v hmem
  have := tick3_ko profiles totalLanes tl lw obstacles birds draws dt e racers
    k v hv hko
  rw [this] at hk
  cases hk
  exact ⟨by rw [koStep_knockedOut, hko], koStep_finished dt v⟩

lemma update3_allKO (profiles : List Profile) (totalLanes : ℕ) (tl lw : ℚ)
    (obsEvolve : ℚ → ℚ → World3 → List Obstacle)
    (birdEvolve : ℚ → ℚ → World3 → List Bird) (latDraw : ℚ → ℕ → LatDraw)
    (lastE e : ℚ) (w : World3) (h : AllKO w) :
    AllKO (update3 profiles totalLanes tl lw obsEvolve birdEvolve latDraw
        lastE e w) ∧
      fins3 (update3 profiles totalLanes tl lw obsEvolve birdEvolve latDraw
        lastE e w) = [] := by
  have hall := tick3_allKO profiles totalLanes tl lw (obsEvolve lastE e w)
    (birdEvolve lastE e w) (latDraw e) (max (1/1000) ((e - lastE) / 1000)) e
    w.racers h
  constructor
  · intro r hr
    exact (hall r hr).1
  · apply List.filter_eq_nil_iff.mpr
    intro r hr
    simp [(hall r hr).2]

/-- Loop invariant of the degenerate race: all racers stay knocked out,
no winner flag, no emissions. -/
def DegInv (s : RunState World3 Racer3) : Prop :=
  AllKO s.world ∧ s.winnerFlag = false ∧ s.emitted = []

lemma stepRun3_deg (profiles : List Profile) (totalLanes : ℕ) (tl lw : ℚ)
    (obsEvolve : ℚ → ℚ → World3 → List Obstacle)
    (birdEvolve : ℚ → ℚ → World3 → List Bird) (latDraw : ℚ → ℕ → LatDraw)
    (s : RunState World3 Racer3) (e : ℚ) (h : DegInv s) :
    DegInv (stepRun fins3 Racer3.totalDistance
        (update3 profiles totalLanes tl lw obsEvolve birdEvolve latDraw)
        false s e) ∧
      ((s.stopped = true ∨ 4500 ≤ e) →
        (stepRun fins3 Racer3.totalDistance
          (update3 profiles totalLanes tl lw obsEvolve birdEvolve latDraw)
          false s e).stopped = true) := by
  obtain ⟨hall, hflag, hemit⟩ := h
  by_cases hs : s.stopped
  · rw [stepRun_stopped _ _ _ _ _ _ hs]
    exact ⟨⟨hall, hflag, hemit⟩, fun _ => hs⟩
  · obtain ⟨hall', hfe⟩ := update3_allKO profiles totalLanes tl lw obsEvolve
      birdEvolve latDraw s.lastElapsed e s.world hall
    have hff : firstFinisher Racer3.totalDistance
        (fins3 (update3 profiles totalLanes tl lw obsEvolve birdEvolve latDraw
          s.lastElapsed e s.world)) = none := by
      rw [hfe]; rfl
    unfold stepRun
    rw [if_neg hs]
    simp only [hflag, hff]
    refine ⟨⟨hall', rfl, hemit⟩, ?_⟩
    intro hor
    rcases hor with hst | h4500
    · exact absurd hst hs
    · simp [not_lt.mpr h4500]

lemma runRace3_deg (profiles : List Profile) (totalLanes : ℕ) (tl lw : ℚ)
    (obsEvolve : ℚ → ℚ → World3 → List Obstacle)
    (birdEvolve : ℚ → ℚ → World3 → List Bird) (latDraw : ℚ → ℕ → LatDraw)
    (ticks : List ℚ) :
    ∀ s : RunState World3 Racer3, DegInv s →
      DegInv (runRace fins3 Racer3.totalDistance
        (update3 profiles totalLanes tl lw obsEvolve birdEvolve latDraw)
        false ticks s) := by
  induction ticks with
  | nil => intro s h; exact h
  | cons t rest ih =>
    intro s h
    exact ih _ (stepRun3_deg profiles totalLanes tl lw obsEvolve birdEvolve
      latDraw s t h).1

lemma runRace3_deg_stops (profiles : List Profile) (totalLanes : ℕ) (tl lw : ℚ)
    (obsEvolve : ℚ → ℚ → World3 → List Obstacle)
    (birdEvolve : ℚ → ℚ → World3 → List Bird) (latDraw : ℚ → ℕ → LatDraw)
    (ticks : List ℚ) (s : RunState World3 Racer3) (h : DegInv s)
    (ht : ∃ t ∈ ticks, (4500 : ℚ) ≤ t) :
    (runRace fins3 Racer3.totalDistance
      (update3 profiles totalLanes tl lw obsEvolve birdEvolve latDraw)
      false ticks s).stopped = true := by
  obtain ⟨t, hmem, h4500⟩ := ht
  obtain ⟨l1, l2, rfl⟩ := List.append_of_mem hmem
  have h1 := runRace3_deg profiles totalLanes tl lw obsEvolve birdEvolve
    latDraw l1 s h
  have h2 := (stepRun3_deg profiles totalLanes tl lw obsEvolve birdEvolve
    latDraw _ t h1).2 (Or.inr h4500)
  have hsplit : runRace fins3 Racer3.totalDistance
      (update3 profiles totalLanes tl lw obsEvolve birdEvolve latDraw) false
      (l1 ++ t :: l2) s
      = runRace fins3 Racer3.totalDistance
        (update3 profiles totalLanes tl lw obsEvolve birdEvolve latDraw) false l2
        (stepRun fins3 Racer3.totalDistance
          (update3 profiles totalLanes tl lw obsEvolve birdEvolve latDraw) false
          (runRace fins3 Racer3.totalDistance
            (update3 profiles totalLanes tl lw obsEvolve birdEvolve latDraw)
            false l1 s) t) := by
    simp [runRace, List.foldl_append]
  rw [hsplit, runRace_stopped _ _ _ _ _ _ h2, h2]

lemma hStep_x (p : Profile) (e spinR : ℚ) (r : RacerH) :
    (hStep p e spinR r).x = min (50 + totalDistanceAt p e) 700 := rfl

lemma hStep_totalDistance (p : Profile) (e spinR : ℚ) (r : RacerH) :
    (hStep p e spinR r).totalDistance = totalDistanceAt p e := rfl

lemma activeStep3_y (p : Profile) (totalLanes : ℕ) (e : ℚ) (env : LatDraw)
    (r : Racer3) :
    (activeStep3 p totalLanes e env r).y
      = max (START3 - totalDistanceAt p e) FINISH3 := rfl

/-- Concrete racer used by finisher-scan witnesses. -/
def racerHEx (idv : ℤ) (dist : ℚ) : RacerH :=
  { entryId := idv, x := 700, speed := 200, finished := true,
    totalDistance := dist, previousSpeed := 200, spinAngle := 0, laneIndex := 0 }

/-- Concrete well-formed speed profile (two segments of 325 px at
200 px/s). -/
def profileEx : Profile := { speeds := [200, 200], segmentDistance := 325 }

/-- C1.  The winner scan `finishers.reduce((prev, current) =>
current.totalDistance > prev.totalDistance ? current : prev)` selects the
finisher whose accumulated (pre-clamp) distance strictly exceeds every
other finisher's, independently of lane order or iteration order (any
permutation of the finisher list yields the same winner), and the tick that
emits does emit exactly that finisher as its one WinnerEvent. -/
theorem C1_winner_strict_max (l : List RacerH) (w : RacerH) (hw : w ∈ l)
    (hmax : ∀ r ∈ l, r = w ∨ r.totalDistance < w.totalDistance) :
    firstFinisher RacerH.totalDistance l = some w ∧
      (∀ l' : List RacerH, l'.Perm l →
        firstFinisher RacerH.totalDistance l' = some w) ∧
      ∀ (W : Type) (fins : W → List RacerH) (update : ℚ → ℚ → W → W)
        (extra : Bool) (s : RunState W RacerH) (e : ℚ),
        s.stopped = false → s.winnerFlag = false →
        fins (update s.lastElapsed e s.world) = l →
        (stepRun fins RacerH.totalDistance update extra s e).emitted
          = s.emitted ++ [w] := by
  refine ⟨firstFinisher_strictMax _ l w hw hmax, ?_, ?_⟩
  · intro l' hperm
    exact firstFinisher_strictMax _ l' w (hperm.mem_iff.mpr hw)
      (fun r hr => hmax r (hperm.mem_iff.mp hr))
  · intro W fins update extra s e hs hflag hfins
    unfold stepRun
    rw [if_neg (by simp [hs])]
    simp only [hflag, hfins, firstFinisher_strictMax RacerH.totalDistance l w hw hmax]

/-- C1 witness: a two-finisher tick with distances 650 > 600 selects the
former, in either order. -/
theorem C1_winner_strict_max_witness :
    firstFinisher RacerH.totalDistance [racerHEx 1 650, racerHEx 2 600]
      = some (racerHEx 1 650) ∧
    firstFinisher RacerH.totalDistance [racerHEx 2 600, racerHEx 1 650]
      = some (racerHEx 1 650) := by
  have h := C1_winner_strict_max [racerHEx 1 650, racerHEx 2 600]
    (racerHEx 1 650) (by simp)
    (by
      intro r hr
      rcases List.mem_cons.mp hr with rfl | hr
      · exact Or.inl rfl
      · rcases List.mem_cons.mp hr with rfl | hr
        · exact Or.inr (by norm_num [racerHEx])
        · simp at hr)
  exact ⟨h.1, h.2.1 _ (List.Perm.swap _ _ _)⟩

/-- C2.  The `finished`-flag guard makes `onWinner` fire at most once per
race for any world update whatsoever (both variants), and in the horizontal
variant it fires exactly once as soon as the frame times reach 3250 ms (by
which every well-formed profile has covered the full 650 px track; the
loop keeps rescheduling until then because `RACE_DURATION = 4500`). -/
theorem C2_onWinner_exactly_once :
    (∀ (W R : Type) (fins : W → List R) (d : R → ℚ)
      (update : ℚ → ℚ → W → W) (extra : Bool) (ticks : List ℚ) (w : W),
        ((runRace fins d update extra ticks
          (initRun w : RunState W R)).emitted).length ≤ 1) ∧
    ∀ (profiles : List Profile) (spinDraw : ℚ → ℕ → ℚ) (rs : List RacerH)
      (ticks : List ℚ), profiles ≠ [] → (∀ p ∈ profiles, WFProfile p) →
      rs.length = profiles.length → (∃ t ∈ ticks, (3250 : ℚ) ≤ t) →
      ((runRace finsH RacerH.totalDistance (hUpdate profiles spinDraw) false
        ticks (initRun rs)).emitted).length = 1 := by
  constructor
  · intro W R fins d update extra ticks w
    refine emitInv_length_le (runRace_emitInv fins d update extra ticks _ ?_)
    exact ⟨fun _ => rfl, fun hc => by simp [initRun] at hc⟩
  · intro profiles spinDraw rs ticks hne hwf hlen ht
    exact hRunRace_exactlyOnce profiles spinDraw hne hwf rs hlen ticks ht

/-- C2 witness: one racer, one well-formed profile, a single frame at
4000 ms: exactly one emission. -/
theorem C2_onWinner_exactly_once_witness :
    ((runRace finsH RacerH.totalDistance
      (hUpdate [profileEx] (fun _ _ => 0)) false [4000]
      (initRun [racerHEx 1 0])).emitted).length = 1 := by
  refine C2_onWinner_exactly_once.2 [profileEx] (fun _ _ => 0) [racerHEx 1 0]
    [4000] (by simp) ?_ rfl ⟨4000, by simp, by norm_num⟩
  intro p hp
  rw [List.mem_singleton] at hp
  subst hp
  refine ⟨by simp [profileEx], by norm_num [profileEx], ?_, by norm_num [profileEx]⟩
  intro s hs
  rcases List.mem_cons.mp hs with rfl | hs
  · norm_num
  · rcases List.mem_cons.mp hs with rfl | hs
    · norm_num
    · simp at hs

/-- C4.  `racerSpeedProfiles` draws an integer segment count uniformly from
{2, 3, 4} (`Math.floor(Math.random()*3) + 2` applied to a uniform draw in
[0,1)), one speed per segment uniformly in [200, 400) px/s
(`Math.random()*200 + 200`), and splits the track into that many
equal-length segments whose lengths sum exactly to the full track length. -/
theorem C4_speed_profile_generation (trackLen : ℚ) (u0 : ℚ) (u : ℕ → ℚ)
    (h0 : 0 ≤ u0) (h1 : u0 < 1) (hu : ∀ i, 0 ≤ u i ∧ u i < 1) :
    2 ≤ (genProfile trackLen u0 u).speeds.length ∧
    (genProfile trackLen u0 u).speeds.length ≤ 4 ∧
    (∀ s ∈ (genProfile trackLen u0 u).speeds, 200 ≤ s ∧ s < 400) ∧
    (List.replicate (genProfile trackLen u0 u).speeds.length
      (genProfile trackLen u0 u).segmentDistance).sum = trackLen := by
  have h3 : (0 : ℚ) ≤ u0 * 3 := mul_nonneg h0 (by norm_num)
  have hf0 : 0 ≤ ⌊u0 * 3⌋ := Int.floor_nonneg.mpr h3
  have hflt : ⌊u0 * 3⌋ < 3 := by
    rw [Int.floor_lt]
    push_cast
    nlinarith
  have hlen : (genProfile trackLen u0 u).speeds.length = (⌊u0 * 3⌋).toNat + 2 := by
    simp [genProfile]
  refine ⟨by omega, by omega, ?_, ?_⟩
  · intro s hs
    simp only [genProfile, List.mem_map, List.mem_range] at hs
    obtain ⟨i, _, rfl⟩ := hs
    obtain ⟨hi0, hi1⟩ := hu i
    constructor <;> nlinarith
  · rw [List.sum_replicate, nsmul_eq_mul, hlen]
    have hseg : (genProfile trackLen u0 u).segmentDistance
        = trackLen / (((⌊u0 * 3⌋).toNat + 2 : ℕ) : ℚ) := by
      simp [genProfile]
    rw [hseg]
    have hne : (((⌊u0 * 3⌋).toNat + 2 : ℕ) : ℚ) ≠ 0 := by
      exact_mod_cast Nat.succ_ne_zero ((⌊u0 * 3⌋).toNat + 1)
    rw [mul_comm, div_mul_cancel₀ _ hne]

/-- C4 witness: the draw 1/2 for the count and 1/2 for every speed gives 3
segments of 650/3 px at 300 px/s. -/
theorem C4_speed_profile_generation_witness :
    2 ≤ (genProfile 650 (1/2) (fun _ => 1/2)).speeds.length ∧
    (genProfile 650 (1/2) (fun _ => 1/2)).speeds.length ≤ 4 ∧
    (∀ s ∈ (genProfile 650 (1/2) (fun _ => 1/2)).speeds, 200 ≤ s ∧ s < 400) ∧
    (List.replicate (genProfile 650 (1/2) (fun _ => 1/2)).speeds.length
      (genProfile 650 (1/2) (fun _ => 1/2)).segmentDistance).sum = 650 :=
  C4_speed_profile_generation 650 (1/2) (fun _ => 1/2) (by norm_num)
    (by norm_num) (fun _ => ⟨by norm_num, by norm_num⟩)

/-- C5.  For a racer that is never knocked out, clamped position is
monotone in elapsed time: in the horizontal variant `x` never decreases,
and in the vertical variant `y` never increases (the racer never moves away
from the finish), for any cosmetic state and random draws. -/
theorem C5_monotonic_progress (p : Profile) (hsp : ∀ s ∈ p.speeds, 0 < s)
    (hseg : 0 < p.segmentDistance) (e1 e2 : ℚ) (h12 : e1 ≤ e2)
    (spin1 spin2 : ℚ) (r1 r2 : RacerH) (totalLanes : ℕ) (env1 env2 : LatDraw)
    (q1 q2 : Racer3) :
    (hStep p e1 spin1 r1).x ≤ (hStep p e2 spin2 r2).x ∧
      (activeStep3 p totalLanes e2 env2 q2).y
        ≤ (activeStep3 p totalLanes e1 env1 q1).y := by
  have hmono := totalDistanceAt_mono p hseg hsp h12
  constructor
  · rw [hStep_x, hStep_x]
    exact min_le_min (by linarith) (le_refl 700)
  · rw [activeStep3_y, activeStep3_y]
    exact max_le_max (by linarith) (le_refl FINISH3)

/-- Concrete still-active vertical racer at the start line. -/
def racer3Ex : Racer3 :=
  { entryId := 1, y := 555, speed := 0, finished := false, totalDistance := 0,
    previousSpeed := 0, spinAngle := 0, laneIndex := 0, lateralPos := 0,
    lateralTarget := 0, lateralStartPos := 0, lateralStartTime := 0,
    lateralDuration := 0, knockedOut := false, isFalling := false,
    fallY := 555, fallVelocity := 0 }

/-- C5 witness: two frames of a concrete well-formed profile. -/
theorem C5_monotonic_progress_witness :
    (hStep profileEx 100 0 (racerHEx 1 0)).x
      ≤ (hStep profileEx 200 0 (racerHEx 1 0)).x ∧
    (activeStep3 profileEx 2 200 ⟨0, 0, 0, 0⟩ racer3Ex).y
      ≤ (activeStep3 profileEx 2 100 ⟨0, 0, 0, 0⟩ racer3Ex).y := by
  refine C5_monotonic_progress profileEx ?_ (by norm_num [profileEx]) 100 200
    (by norm_num) 0 0 (racerHEx 1 0) (racerHEx 1 0) 2 ⟨0, 0, 0, 0⟩ ⟨0, 0, 0, 0⟩
    racer3Ex racer3Ex
  intro s hs
  rcases List.mem_cons.mp hs with rfl | hs
  · norm_num
  · rcases List.mem_cons.mp hs with rfl | hs
    · norm_num
    · simp at hs

/-- C6.  A racer's clamped `x`, accumulated distance and finished flag
after a tick are a function of the speed profile and elapsed time alone:
the previous-speed comparison (threshold 20 px/s) only drives spin wobble
and particle emission, so any two racer states with arbitrary frame history
and any spin draws produce the same race-relevant outputs. -/
theorem C6_cosmetics_noninterference (p : Profile) (e : ℚ)
    (spin1 spin2 : ℚ) (r1 r2 : RacerH) :
    (hStep p e spin1 r1).x = (hStep p e spin2 r2).x ∧
    (hStep p e spin1 r1).totalDistance = (hStep p e spin2 r2).totalDistance ∧
    (hStep p e spin1 r1).finished = (hStep p e spin2 r2).finished ∧
    (hStep p e spin1 r1).x = min (50 + totalDistanceAt p e) 700 ∧
    (hStep p e spin1 r1).totalDistance = totalDistanceAt p e :=
  ⟨rfl, rfl, rfl, rfl, rfl⟩

/-- C7.  With unique participant ids, each racer's lane slot is exactly its
participant's index in the full (including-eliminated) roster — hence
identical across the tournament while the full roster is unchanged, and
eliminated participants keep reserving their lane — lane slots are
injective, and the track reports `max(roster size, 2)` lanes, always at
least 2. -/
theorem C7_lane_assignment (allEntries : List Entry)
    (hnodup : (allEntries.map Entry.id).Nodup) :
    (∀ (i : ℕ) (hi : i < allEntries.length),
      laneIndexOf allEntries (allEntries.get ⟨i, hi⟩) = i) ∧
    (∀ (i j : ℕ) (hi : i < allEntries.length) (hj : j < allEntries.length),
      i ≠ j → laneIndexOf allEntries (allEntries.get ⟨i, hi⟩)
        ≠ laneIndexOf allEntries (allEntries.get ⟨j, hj⟩)) ∧
    numLanes allEntries = max allEntries.length 2 ∧
    2 ≤ numLanes allEntries := by
  refine ⟨fun i hi => laneIndexOf_get allEntries hnodup i hi, ?_, rfl, ?_⟩
  · intro i j hi hj hij
    rw [laneIndexOf_get allEntries hnodup i hi,
      laneIndexOf_get allEntries hnodup j hj]
    exact hij
  · exact le_max_right _ _

/-- C7 witness: a two-participant roster with distinct ids occupies lanes 0
and 1 of a 2-lane track. -/
theorem C7_lane_assignment_witness :
    laneIndexOf [⟨1, "A"⟩, ⟨2, "B"⟩] (⟨1, "A"⟩ : Entry) = 0 ∧
    laneIndexOf [⟨1, "A"⟩, ⟨2, "B"⟩] (⟨2, "B"⟩ : Entry) = 1 ∧
    numLanes [(⟨1, "A"⟩ : Entry), ⟨2, "B"⟩] = 2 := by
  have h := C7_lane_assignment [⟨1, "A"⟩, ⟨2, "B"⟩] (by
    simp only [List.map_cons, List.map_nil, List.nodup_cons]
    norm_num)
  exact ⟨h.1 0 (by norm_num), h.1 1 (by norm_num), h.2.2.1⟩

/-- C9.  When exactly one active participant remains, both `startRace` and
the post-win `handleRaceComplete` skip the simulation entirely and declare
that participant the winner immediately. -/
theorem C9_single_racer_fast_path (entries : List Entry)
    (eliminatedIds : List ℤ) (e : Entry)
    (h : activeOf entries eliminatedIds = [e]) :
    startRaceOutcome entries eliminatedIds = ControllerOutcome.declareWinner e ∧
    raceCompleteOutcome entries eliminatedIds
      = ControllerOutcome.declareWinner e ∧
    startRaceOutcome entries eliminatedIds ≠ ControllerOutcome.runSimRace ∧
    raceCompleteOutcome entries eliminatedIds
      ≠ ControllerOutcome.runSimRace := by
  refine ⟨?_, ?_, ?_, ?_⟩ <;> simp [startRaceOutcome, raceCompleteOutcome, h]

/-- C9 witness: a roster where the sole participant 1 is still active. -/
theorem C9_single_racer_fast_path_witness :
    startRaceOutcome [⟨1, "A"⟩, ⟨2, "B"⟩] [2]
      = ControllerOutcome.declareWinner ⟨1, "A"⟩ ∧
    raceCompleteOutcome [⟨1, "A"⟩, ⟨2, "B"⟩] [2]
      = ControllerOutcome.declareWinner ⟨1, "A"⟩ := by
  have h := C9_single_racer_fast_path [⟨1, "A"⟩, ⟨2, "B"⟩] [2] ⟨1, "A"⟩ (by
    simp [activeOf])
  exact ⟨h.1, h.2.1⟩

/-- C10.  The winner reduce keeps its current candidate on exact ties
(it replaces only on strictly greater distance), so the selected winner is
the earliest finisher in racer-array order among those attaining the
maximum distance; in particular, when all same-tick finishers have exactly
equal accumulated distance, the first finisher in array order wins. -/
theorem C10_tie_earliest_index (l : List RacerH) (hne : l ≠ []) :
    ∃ i, ∃ hi : i < l.length,
      firstFinisher RacerH.totalDistance l = some (l.get ⟨i, hi⟩) ∧
      (∀ r ∈ l, r.totalDistance ≤ (l.get ⟨i, hi⟩).totalDistance) ∧
      (∀ j, ∀ hj : j < l.length, j < i →
        (l.get ⟨j, hj⟩).totalDistance < (l.get ⟨i, hi⟩).totalDistance) ∧
      ((∀ r ∈ l, ∀ q ∈ l, r.totalDistance = q.totalDistance) →
        ∃ h0 : 0 < l.length,
          firstFinisher RacerH.totalDistance l = some (l.get ⟨0, h0⟩)) := by
  obtain ⟨i, hi, heq, hle, hbefore⟩ := firstFinisher_argmax RacerH.totalDistance l hne
  refine ⟨i, hi, heq, hle, hbefore, ?_⟩
  intro hsame
  have h0 : 0 < l.length := lt_of_le_of_lt (Nat.zero_le i) hi
  refine ⟨h0, ?_⟩
  match i, hi with
  | 0, hi => exact heq
  | i' + 1, hi =>
    exfalso
    have hlt := hbefore 0 h0 (Nat.succ_pos i')
    have := hsame (l.get ⟨0, h0⟩) (l.get_mem _ _) (l.get ⟨i' + 1, hi⟩)
      (l.get_mem _ _)
    rw [this] at hlt
    exact lt_irrefl _ hlt

/-- C10 witness: two finishers with equal distance 650 — the first in array
order is selected. -/
theorem C10_tie_earliest_index_witness :
    firstFinisher RacerH.totalDistance [racerHEx 7 650, racerHEx 8 650]
      = some (racerHEx 7 650) := by
  obtain ⟨i, hi, heq, _, _, htie⟩ :=
    C10_tie_earliest_index [racerHEx 7 650, racerHEx 8 650] (by simp)
  obtain ⟨h0, hhead⟩ := htie (by
    intro r hr q hq
    have h1 : r.totalDistance = 650 := by
      rcases List.mem_cons.mp hr with rfl | hr
      · rfl
      · rcases List.mem_cons.mp hr with rfl | hr
        · rfl
        · simp at hr
    have h2 : q.totalDistance = 650 := by
      rcases List.mem_cons.mp hq with rfl | hq
      · rfl
      · rcases List.mem_cons.mp hq with rfl | hq
        · rfl
        · simp at hq
    rw [h1, h2])
  exact hhead

/-- A still-active vertical racer at height `yv`, centre of lane 0. -/
def racerAt (yv : ℚ) : Racer3 := { racer3Ex with y := yv }

/-- A racer knocked out mid-track. -/
def koRacer3Ex : Racer3 := knockRacer (racerAt 300)

/-- A degenerate field: both racers already knocked out. -/
def degWorldEx : World3 :=
  { racers := [koRacer3Ex, knockRacer racer3Ex], obstacles := [], birds := [] }

/-- C3 counterexample: a degenerate race (every racer knocked out) run past
the `RACE_DURATION = 4500` cap.  The loop does stop, but no fallback winner
is selected (`emitted = []`, i.e. `onWinner` is never called) and no
no-winner signal of any kind is produced (`winnerFlag = false`: the race
never transitions to its finished state) — contradicting the claim that the
cap forces a fallback winner selection or an explicit no-winner signal. -/
theorem C3_no_fallback_counterexample :
    (runRace fins3 Racer3.totalDistance
        (update3 [profileEx] 2 20 10 (fun _ _ _ => []) (fun _ _ _ => [])
          (fun _ _ => ⟨0, 0, 0, 0⟩)) false [5000]
        (initRun degWorldEx)).emitted = [] ∧
      (runRace fins3 Racer3.totalDistance
        (update3 [profileEx] 2 20 10 (fun _ _ _ => []) (fun _ _ _ => [])
          (fun _ _ => ⟨0, 0, 0, 0⟩)) false [5000]
        (initRun degWorldEx)).winnerFlag = false ∧
      (runRace fins3 Racer3.totalDistance
        (update3 [profileEx] 2 20 10 (fun _ _ _ => []) (fun _ _ _ => [])
          (fun _ _ => ⟨0, 0, 0, 0⟩)) false [5000]
        (initRun degWorldEx)).stopped = true := by
  have hdeg : DegInv (initRun degWorldEx : RunState World3 Racer3) := by
    refine ⟨?_, rfl, rfl⟩
    intro r hr
    rcases List.mem_cons.mp hr with rfl | hr
    · rfl
    · rcases List.mem_cons.mp hr with rfl | hr
      · rfl
      · simp at hr
  have h1 := runRace3_deg [profileEx] 2 20 10 (fun _ _ _ => [])
    (fun _ _ _ => []) (fun _ _ => ⟨0, 0, 0, 0⟩) [5000] _ hdeg
  have h2 := runRace3_deg_stops [profileEx] 2 20 10 (fun _ _ _ => [])
    (fun _ _ _ => []) (fun _ _ => ⟨0, 0, 0, 0⟩) [5000] _ hdeg
    ⟨5000, by simp, by norm_num⟩
  exact ⟨h1.2.2, h1.2.1, h2⟩

/-- C3 (amended).  If every active racer is knocked out before any racer
finishes, the simulation resolves deterministically without crashing or
advancing forever: no tick ever emits a winner and the race never reaches
its finished state; once a frame at or past the `RACE_DURATION = 4500` cap
is processed, the loop stops rescheduling and every later tick leaves the
state untouched.  No fallback winner is selected and no explicit no-winner
signal is emitted. -/
theorem C3_degenerate_cap (profiles : List Profile) (totalLanes : ℕ)
    (tl lw : ℚ) (obsE : ℚ → ℚ → World3 → List Obstacle)
    (birdE : ℚ → ℚ → World3 → List Bird) (latDraw : ℚ → ℕ → LatDraw)
    (ticks : List ℚ) (w : World3)
    (hall : ∀ r ∈ w.racers, r.knockedOut = true) :
    (runRace fins3 Racer3.totalDistance
        (update3 profiles totalLanes tl lw obsE birdE latDraw) false ticks
        (initRun w)).emitted = [] ∧
      (runRace fins3 Racer3.totalDistance
        (update3 profiles totalLanes tl lw obsE birdE latDraw) false ticks
        (initRun w)).winnerFlag = false ∧
      ((∃ t ∈ ticks, (4500 : ℚ) ≤ t) →
        (runRace fins3 Racer3.totalDistance
          (update3 profiles totalLanes tl lw obsE birdE latDraw) false ticks
          (initRun w)).stopped = true) ∧
      ∀ (moreTicks : List ℚ) (s : RunState World3 Racer3), s.stopped = true →
        runRace fins3 Racer3.totalDistance
          (update3 profiles totalLanes tl lw obsE birdE latDraw) false
          moreTicks s = s := by
  have hdeg : DegInv (initRun w : RunState World3 Racer3) := ⟨hall, rfl, rfl⟩
  have h1 := runRace3_deg profiles totalLanes tl lw obsE birdE latDraw ticks _
    hdeg
  refine ⟨h1.2.2, h1.2.1, ?_, ?_⟩
  · intro ht
    exact runRace3_deg_stops profiles totalLanes tl lw obsE birdE latDraw
      ticks _ hdeg ht
  · intro moreTicks s hs
    exact runRace_stopped _ _ _ _ moreTicks s hs

/-- C3 witness: the amended statement instantiated on a two-racer degenerate
field with a frame past the cap. -/
theorem C3_degenerate_cap_witness :
    (runRace fins3 Racer3.totalDistance
        (update3 [profileEx] 2 20 10 (fun _ _ _ => []) (fun _ _ _ => [])
          (fun _ _ => ⟨0, 0, 0, 0⟩)) false [4600]
        (initRun degWorldEx)).emitted = [] ∧
      (runRace fins3 Racer3.totalDistance
        (update3 [profileEx] 2 20 10 (fun _ _ _ => []) (fun _ _ _ => [])
          (fun _ _ => ⟨0, 0, 0, 0⟩)) false [4600]
        (initRun degWorldEx)).stopped = true := by
  have h := C3_degenerate_cap [profileEx] 2 20 10 (fun _ _ _ => [])
    (fun _ _ _ => []) (fun _ _ => ⟨0, 0, 0, 0⟩) [4600] degWorldEx (by
      intro r hr
      rcases List.mem_cons.mp hr with rfl | hr
      · rfl
      · rcases List.mem_cons.mp hr with rfl | hr
        · rfl
        · simp at hr)
  exact ⟨h.1, h.2.2.1 ⟨4600, by simp, by norm_num⟩⟩

lemma collisionPass_pair_A (tl lw : ℚ) (A B : Racer3)
    (hAf : A.finished = false) (hAk : A.knockedOut = false)
    (hBf : B.finished = false) (hBk : B.knockedOut = false)
    (hcol : collide tl lw A B = true) (hy : B.y < A.y) :
    collisionPass tl lw [A, B] = [knockRacer A, B] := by
  simp [collisionPass, outerPass, innerPass, hAf, hAk, hBf, hBk, hcol, hy]

lemma collisionPass_pair_B (tl lw : ℚ) (A B : Racer3)
    (hAf : A.finished = false) (hAk : A.knockedOut = false)
    (hBf : B.finished = false) (hBk : B.knockedOut = false)
    (hcol : collide tl lw A B = true) (hy : A.y < B.y) :
    collisionPass tl lw [A, B] = [A, knockRacer B] := by
  simp [collisionPass, outerPass, innerPass, hAf, hAk, hBf, hBk, hcol,
    lt_asymm hy, hAf]

lemma update3_ko_perm (profiles : List Profile) (totalLanes : ℕ) (tl lw : ℚ)
    (obsE : ℚ → ℚ → World3 → List Obstacle)
    (birdE : ℚ → ℚ → World3 → List Bird) (latDraw : ℚ → ℕ → LatDraw)
    (k : ℕ) (y0 : ℚ) (lastE e : ℚ) (w : World3)
    (h : ∃ v, w.racers[k]? = some v ∧ KOInv v ∧ y0 ≤ v.y) :
    ∃ v', (update3 profiles totalLanes tl lw obsE birdE latDraw lastE e
        w).racers[k]? = some v' ∧ KOInv v' ∧ y0 ≤ v'.y := by
  obtain ⟨v, hk, hinv, hy⟩ := h
  have hdt : (0 : ℚ) ≤ max (1/1000) ((e - lastE) / 1000) :=
    le_trans (by norm_num) (le_max_left _ _)
  obtain ⟨hinv', hyy⟩ := koStep_koInv (max (1/1000) ((e - lastE) / 1000)) hdt
    v hinv
  refine ⟨koStep (max (1/1000) ((e - lastE) / 1000)) v, ?_, hinv', le_trans hy hyy⟩
  show (tick3 profiles totalLanes tl lw (obsE lastE e w) (birdE lastE e w)
    (latDraw e) (max (1/1000) ((e - lastE) / 1000)) e w.racers)[k]? = _
  exact tick3_ko profiles totalLanes tl lw _ _ _ _ e w.racers k v hk hinv.1

/-- C8.  The inter-racer collision rule of part_003: (a) for two
still-active racers within both collision thresholds, the strictly trailing
racer (greater `y`, further from the top finish line) is knocked out and
the leader is untouched; (b) in any field, a racer newly knocked out by the
pass always has a collision partner at least as close to the finish — the
strict leader of every colliding pair is never the one eliminated; (c) a
knocked-out racer stays knocked out for the remainder of the race, its `y`
never again moves toward the finish over any sequence of ticks, it is never
marked finished, and every emitted winner is a finisher — so a knocked-out
racer can no longer win. -/
theorem C8_collision_trailing_knockout :
    (∀ (tl lw : ℚ) (A B : Racer3),
      A.finished = false → A.knockedOut = false → B.finished = false →
      B.knockedOut = false → collide tl lw A B = true →
      (B.y < A.y → collisionPass tl lw [A, B] = [knockRacer A, B]) ∧
      (A.y < B.y → collisionPass tl lw [A, B] = [A, knockRacer B])) ∧
    (∀ (tl lw : ℚ) (arr : List Racer3) (k : ℕ) (r r' : Racer3),
      arr[k]? = some r → r.knockedOut = false →
      (collisionPass tl lw arr)[k]? = some r' → r'.knockedOut = true →
      ∃ j v, j ≠ k ∧ arr[j]? = some v ∧ collide tl lw v r = true ∧
        v.y ≤ r.y) ∧
    (∀ (profiles : List Profile) (totalLanes : ℕ) (tl lw : ℚ)
      (obsE : ℚ → ℚ → World3 → List Obstacle)
      (birdE : ℚ → ℚ → World3 → List Bird) (latDraw : ℚ → ℕ → LatDraw)
      (ticks : List ℚ) (w : World3) (k : ℕ) (v : Racer3),
      w.racers[k]? = some v → KOInv v →
      ∃ v', (runRace fins3 Racer3.totalDistance
          (update3 profiles totalLanes tl lw obsE birdE latDraw) false ticks
          (initRun w)).world.racers[k]? = some v' ∧
        v'.knockedOut = true ∧ v'.finished = false ∧ v.y ≤ v'.y) ∧
    ∀ (profiles : List Profile) (totalLanes : ℕ) (tl lw : ℚ)
      (obsE : ℚ → ℚ → World3 → List Obstacle)
      (birdE : ℚ → ℚ → World3 → List Bird) (latDraw : ℚ → ℕ → LatDraw)
      (ticks : List ℚ) (w : World3),
      ∀ r ∈ (runRace fins3 Racer3.totalDistance
        (update3 profiles totalLanes tl lw obsE birdE latDraw) false ticks
        (initRun w)).emitted, r.finished = true := by
  refine ⟨?_, ?_, ?_, ?_⟩
  · intro tl lw A B hAf hAk hBf hBk hcol
    exact ⟨collisionPass_pair_A tl lw A B hAf hAk hBf hBk hcol,
      collisionPass_pair_B tl lw A B hAf hAk hBf hBk hcol⟩
  · intro tl lw arr k r r' hk hko hk' hko'
    obtain ⟨hpos, horigin⟩ := collisionPass_knockOrigin tl lw arr
    rcases horigin k r' hk' hko' with ⟨w0, hw0, hw0ko⟩ | hwit
    · rw [hk] at hw0
      cases hw0
      rw [hko] at hw0ko
      cases hw0ko
    · obtain ⟨j, v, w0, hj, hjv, hkw, hcol, hyle⟩ := hwit
      rw [hk] at hkw
      cases hkw
      exact ⟨j, v, hj, hjv, hcol, hyle⟩
  · intro profiles totalLanes tl lw obsE birdE latDraw ticks w k v hk hinv
    have hfinal := runRace_world_pred fins3 Racer3.totalDistance
      (update3 profiles totalLanes tl lw obsE birdE latDraw) false
      (fun w' => ∃ v', w'.racers[k]? = some v' ∧ KOInv v' ∧ v.y ≤ v'.y)
      (fun lastE e w' hw' => update3_ko_perm profiles totalLanes tl lw obsE
        birdE latDraw k v.y lastE e w' hw')
      ticks (initRun w) (by exact ⟨v, hk, hinv, le_refl v.y⟩)
    obtain ⟨v', hv', hinv', hy'⟩ := hfinal
    exact ⟨v', hv', hinv'.1, hinv'.2.1, hy'⟩
  · intro profiles totalLanes tl lw obsE birdE latDraw ticks w
    exact runRace_emitted_pred fins3 Racer3.totalDistance
      (update3 profiles totalLanes tl lw obsE birdE latDraw) false
      (fun r => r.finished = true)
      (fun w' r hr => (List.mem_filter.mp hr).2) ticks _ (by simp [initRun])

/-- C8 witness: two lane-0 racers 10 px apart (both thresholds met) — the
trailing one at `y = 310` is knocked out, the leader at `y = 300` is
untouched; and a knocked-out racer still satisfies the permanence
conclusion after a tick. -/
theorem C8_collision_trailing_knockout_witness :
    collisionPass 20 10 [racerAt 310, racerAt 300]
        = [knockRacer (racerAt 310), racerAt 300] ∧
      ∃ v', (runRace fins3 Racer3.totalDistance
          (update3 [profileEx] 2 20 10 (fun _ _ _ => []) (fun _ _ _ => [])
            (fun _ _ => ⟨0, 0, 0, 0⟩)) false [100]
          (initRun degWorldEx)).world.racers[0]? = some v' ∧
        v'.knockedOut = true ∧ v'.finished = false ∧
        (koRacer3Ex).y ≤ v'.y := by
  have h := C8_collision_trailing_knockout
  constructor
  · refine (h.1 20 10 (racerAt 310) (racerAt 300) rfl rfl rfl rfl ?_).1
      (by norm_num [racerAt, racer3Ex])
    show (decide (|(racerAt 310).y - (racerAt 300).y| < 14) &&
      decide (|xOf 20 10 (racerAt 310) - xOf 20 10 (racerAt 300)| <
        10 * (35/100))) = true
    norm_num [racerAt, racer3Ex, xOf]
  · exact h.2.2.1 [profileEx] 2 20 10 (fun _ _ _ => []) (fun _ _ _ => [])
      (fun _ _ => ⟨0, 0, 0, 0⟩) [100] degWorldEx 0 koRacer3Ex rfl
      (knockRacer_koInv (racerAt 300) (by norm_num [racerAt, racer3Ex, START3]))

end RacePicker
